import Mathlib

/-!
# Verification of the node-x12 EDI functional-group, parser and generator logic

A shallow embedding of the `X12FunctionalGroup` class (the one source file of
the repository) together with spec-modelled versions of its collaborators
(`X12Segment`, `X12Transaction`, `X12Interchange`, the serialization options,
the generic JSON notational mirror, the parser and the generator), which are
part of the repository but whose sources are not available here.  Pure
functions become Lean functions; JavaScript `undefined` fields become
`Option`; a JavaScript method that can throw returns `Except X12Error`.
-/

/-- Errors a method of the embedded program can raise.  `typeError` models a
JavaScript `TypeError` from dereferencing `undefined`; the remaining
constructors model the error kinds named by the specification
(`StructuralError`, `DelimiterDetectionError`, and the
`IncompleteContainerError` the spec attributes to generation). -/
inductive X12Error where
  | typeError
  | incompleteContainerError
  | structuralError
  | delimiterDetectionError
deriving DecidableEq, Repr

/-- Modelled from the spec: the serialization options record
(`X12SerializationOptions`), with every recognized field present.  Delimiter
fields are strings, as in the TypeScript source. -/
structure X12SerializationOptions where
  elementDelimiter : String
  segmentTerminator : String
  subElementDelimiter : String
  endOfLine : String
  format : Bool
deriving DecidableEq, Repr

/-- Modelled from the spec: a possibly-partial options object as passed by a
caller, each field optional, to be merged with the defaults. -/
structure X12SerializationOptionsArg where
  elementDelimiter : Option String := none
  segmentTerminator : Option String := none
  subElementDelimiter : Option String := none
  endOfLine : Option String := none
  format : Option Bool := none
deriving DecidableEq, Repr

/-- Modelled from the spec: `defaultSerializationOptions` — the pure merge of
a (possibly absent) caller-supplied options object with the library
defaults. -/
def defaultSerializationOptions (arg : Option X12SerializationOptionsArg) :
    X12SerializationOptions :=
  let a := arg.getD {}
  { elementDelimiter := a.elementDelimiter.getD "*"
    segmentTerminator := a.segmentTerminator.getD "~"
    subElementDelimiter := a.subElementDelimiter.getD ">"
    endOfLine := a.endOfLine.getD "\n"
    format := a.format.getD false }

/-- View a fully resolved options record as an options argument with every
field supplied (a resolved options object passed on to an inner call, as
`setHeader` does with `this._setTrailer(options)`). -/
def X12SerializationOptions.toArg (o : X12SerializationOptions) :
    X12SerializationOptionsArg :=
  { elementDelimiter := some o.elementDelimiter
    segmentTerminator := some o.segmentTerminator
    subElementDelimiter := some o.subElementDelimiter
    endOfLine := some o.endOfLine
    format := some o.format }

/-- Modelled from the spec: an `X12Element`, a single scalar value; the
element's raw string value (sub-element structure is flattened into the raw
string, the contract choice the spec allows). -/
structure X12Element where
  value : String
deriving DecidableEq, Repr

/-- Modelled from the spec: an `X12Segment`, a tag and an ordered sequence of
elements. -/
structure X12Segment where
  tag : String
  elements : List X12Element := []
deriving DecidableEq, Repr

/-- Modelled from the spec: `X12Segment.setElements` replaces the segment's
elements with the given raw values. -/
def X12Segment.setElements (s : X12Segment) (elements : List String) : X12Segment :=
  { s with elements := elements.map X12Element.mk }

/-- Modelled from the spec: `X12Segment.replaceElement` replaces the element
at a 1-indexed position (out-of-range positions leave the segment
unchanged). -/
def X12Segment.replaceElement (s : X12Segment) (value : String) (segmentPosition : Nat) :
    X12Segment :=
  { s with elements := s.elements.set (segmentPosition - 1) ⟨value⟩ }

/-- Modelled from the spec: `X12Segment.valueOf` reads the raw value of the
element at a 1-indexed position (empty when out of range). -/
def X12Segment.valueOf (s : X12Segment) (segmentPosition : Nat) : String :=
  ((s.elements.get? (segmentPosition - 1)).map X12Element.value).getD ""

/-- Modelled from the spec: segment serialization — the tag, then each
element's raw value, joined by the element delimiter, followed by the segment
terminator. -/
def X12Segment.toString (s : X12Segment) (o : X12SerializationOptions) : String :=
  (s.elements.map X12Element.value).foldl
    (fun acc v => acc ++ o.elementDelimiter ++ v) s.tag ++ o.segmentTerminator

/-- Modelled from the spec: an `X12Transaction` — an ST/SE-bounded segment
group holding an ordered sequence of body segments.  `header`/`trailer` are
`undefined` until `setHeader` is called. -/
structure X12Transaction where
  header : Option X12Segment := none
  trailer : Option X12Segment := none
  segments : List X12Segment := []
  options : X12SerializationOptions
deriving DecidableEq, Repr

/-- Modelled from the spec: the `X12Transaction` constructor. -/
def X12Transaction.create (options : Option X12SerializationOptionsArg) : X12Transaction :=
  { options := defaultSerializationOptions options }

/-- Modelled from the spec: `X12Transaction.setHeader` sets an ST header with
the given elements and, pairing header and trailer together, an SE trailer
whose single element mirrors the transaction's control number (header element
2, ST02; per the data model the SE trailer tracks no count field). -/
def X12Transaction.setHeader (t : X12Transaction) (elements : List String) : X12Transaction :=
  let header := (X12Segment.mk "ST" []).setElements elements
  { t with
    header := some header
    trailer := some ((X12Segment.mk "SE" []).setElements [header.valueOf 2]) }

/-- Modelled from the spec: `X12Transaction.addSegment` appends a body
segment with the given tag and elements and returns it. -/
def X12Transaction.addSegment (t : X12Transaction) (tag : String) (elements : List String) :
    X12Segment × X12Transaction :=
  let segment := (X12Segment.mk tag []).setElements elements
  (segment, { t with segments := t.segments ++ [segment] })

/-- Modelled from the spec: transaction serialization — header segment, each
body segment in order, trailer segment, with `endOfLine` after each piece but
the trailer exactly when `format` is set (the same recursive shape as the
functional group's `toString`).  Dereferencing a missing header or trailer
raises a `TypeError`. -/
def X12Transaction.toString (t : X12Transaction) (o : X12SerializationOptions) :
    Except X12Error String :=
  match t.header with
  | none => .error .typeError
  | some h =>
    let edi := t.segments.foldl
      (fun acc s => acc ++ s.toString o ++ (if o.format then o.endOfLine else ""))
      (h.toString o ++ (if o.format then o.endOfLine else ""))
    match t.trailer with
    | none => .error .typeError
    | some tr => .ok (edi ++ tr.toString o)

/-- The `X12FunctionalGroup` class: a GS/GE-bounded group holding an ordered
sequence of transactions.  `header` and `trailer` are `undefined` until
`setHeader` is called. -/
structure X12FunctionalGroup where
  header : Option X12Segment := none
  trailer : Option X12Segment := none
  transactions : List X12Transaction := []
  options : X12SerializationOptions
deriving DecidableEq, Repr

/-- The `X12FunctionalGroup` constructor: empty transaction list, options
resolved against the defaults. -/
def X12FunctionalGroup.create (options : Option X12SerializationOptionsArg) :
    X12FunctionalGroup :=
  { options := defaultSerializationOptions options }

/-- The per-call options resolution every method performs:
`options !== undefined ? defaultSerializationOptions(options) : this.options`. -/
def X12FunctionalGroup.resolveOptions (g : X12FunctionalGroup)
    (options : Option X12SerializationOptionsArg) : X12SerializationOptions :=
  match options with
  | some arg => defaultSerializationOptions (some arg)
  | none => g.options

/-- `X12FunctionalGroup._setTrailer`: sets a GE trailer whose elements are the
current transaction count (as a decimal string) and the group control number
read from header element 6; reading the control number dereferences
`this.header`, a `TypeError` when the header is `undefined`. -/
def X12FunctionalGroup._setTrailer (g : X12FunctionalGroup)
    (options : Option X12SerializationOptionsArg) : Except X12Error X12FunctionalGroup :=
  let _o := g.resolveOptions options
  match g.header with
  | none => .error .typeError
  | some h =>
    .ok { g with
      trailer := some ((X12Segment.mk "GE" []).setElements
        [Nat.repr g.transactions.length, h.valueOf 6]) }

/-- `X12FunctionalGroup.setHeader`: sets a GS header holding the given
elements, then `this._setTrailer(options)` with the resolved options (which
always succeeds, the header having just been set). -/
def X12FunctionalGroup.setHeader (g : X12FunctionalGroup) (elements : List String)
    (options : Option X12SerializationOptionsArg) : Except X12Error X12FunctionalGroup :=
  let o := g.resolveOptions options
  let g := { g with header := some ((X12Segment.mk "GS" []).setElements elements) }
  g._setTrailer (some o.toArg)

/-- `X12FunctionalGroup.addTransaction`: pushes a fresh transaction, then
replaces element 1 of `this.trailer` with the new transaction count — a
`TypeError` when the trailer is `undefined` (i.e. before `setHeader`). -/
def X12FunctionalGroup.addTransaction (g : X12FunctionalGroup)
    (options : Option X12SerializationOptionsArg) :
    Except X12Error (X12Transaction × X12FunctionalGroup) :=
  let o := g.resolveOptions options
  let transaction := X12Transaction.create (some o.toArg)
  let g := { g with transactions := g.transactions ++ [transaction] }
  match g.trailer with
  | none => .error .typeError
  | some tr =>
    .ok (transaction,
      { g with trailer := some (tr.replaceElement (Nat.repr g.transactions.length) 1) })

/-- `X12FunctionalGroup.toString`: serialize the header, each transaction in
order, and the trailer, appending `endOfLine` after the header and after each
transaction exactly when `format` is set.  Dereferencing a missing header or
trailer raises a `TypeError`. -/
def X12FunctionalGroup.toString (g : X12FunctionalGroup)
    (options : Option X12SerializationOptionsArg) : Except X12Error String :=
  let o := g.resolveOptions options
  match g.header with
  | none => .error .typeError
  | some h => do
    let edi ← g.transactions.foldlM
      (fun acc t => do
        let s ← t.toString o
        pure (acc ++ s ++ (if o.format then o.endOfLine else "")))
      (h.toString o ++ (if o.format then o.endOfLine else ""))
    match g.trailer with
    | none => .error .typeError
    | some tr => pure (edi ++ tr.toString o)

/-- A segment of the generic delimiter-free notational mirror: tag and raw
value list (class `JSEDISegment`). -/
structure JSEDISegment where
  tag : String
  elements : List String
deriving DecidableEq, Repr

/-- A transaction of the generic notational mirror (class
`JSEDITransaction`): ST header values and body segments. -/
structure JSEDITransaction where
  header : List String
  segments : List JSEDISegment := []
deriving DecidableEq, Repr

/-- A functional group of the generic notational mirror (class
`JSEDIFunctionalGroup`): GS header values and transactions. -/
structure JSEDIFunctionalGroup where
  header : List String
  transactions : List JSEDITransaction := []
deriving DecidableEq, Repr

/-- `X12FunctionalGroup.toJSON`: emit the generic notational mirror — the
group header's raw element values, then for each transaction (in order) its
header's raw element values and, for each of its body segments (in order),
the segment tag and raw element values.  Reading `this.header.elements` or a
transaction's `header.elements` dereferences a possibly-`undefined` header. -/
def X12FunctionalGroup.toJSON (g : X12FunctionalGroup) :
    Except X12Error JSEDIFunctionalGroup :=
  match g.header with
  | none => .error .typeError
  | some h => do
    let transactions ← g.transactions.mapM (fun t => do
      match t.header with
      | none => .error X12Error.typeError
      | some th =>
        pure { header := th.elements.map X12Element.value
               segments := t.segments.map
                 (fun s => JSEDISegment.mk s.tag (s.elements.map X12Element.value)) })
    pure { header := h.elements.map X12Element.value, transactions := transactions }

/-! ## Basic facts about the embedded operations -/

theorem natToDigitsCore_ne_nil (b : Nat) :
    ∀ (fuel n : Nat) (ds : List Char), ds ≠ [] → Nat.toDigitsCore b fuel n ds ≠ []
  | 0, _, _, h => h
  | fuel + 1, n, ds, h => by
      simp only [Nat.toDigitsCore]
      split
      · simp
      · exact natToDigitsCore_ne_nil b fuel (n / b) _ (by simp)

theorem natToDigits_ne_nil (b n : Nat) : Nat.toDigits b n ≠ [] := by
  unfold Nat.toDigits
  simp only [Nat.toDigitsCore]
  split
  · simp
  · exact natToDigitsCore_ne_nil b _ _ _ (by simp)

theorem natRepr_ne_empty (n : Nat) : Nat.repr n ≠ "" := by
  intro h
  exact natToDigits_ne_nil 10 n (congrArg String.data h)

/-- The trailer-count synchronization invariant of a functional group: the
trailer exists and its first (1-indexed) element is the number of
transactions rendered as a decimal string. -/
def X12FunctionalGroup.trailerCountSynced (g : X12FunctionalGroup) : Prop :=
  match g.trailer with
  | none => False
  | some tr => tr.valueOf 1 = Nat.repr g.transactions.length

/-- Explicit description of `setHeader`'s successful result. -/
theorem X12FunctionalGroup.setHeader_eq (g : X12FunctionalGroup) (elements : List String)
    (arg : Option X12SerializationOptionsArg) :
    g.setHeader elements arg = .ok { g with
      header := some ((X12Segment.mk "GS" []).setElements elements)
      trailer := some ((X12Segment.mk "GE" []).setElements
        [Nat.repr g.transactions.length,
         ((X12Segment.mk "GS" []).setElements elements).valueOf 6]) } := rfl

/-- Explicit description of `addTransaction`'s successful result when the
trailer exists. -/
theorem X12FunctionalGroup.addTransaction_eq (g : X12FunctionalGroup) (tr : X12Segment)
    (arg : Option X12SerializationOptionsArg) (h : g.trailer = some tr) :
    g.addTransaction arg = .ok
      (X12Transaction.create (some (g.resolveOptions arg).toArg),
       { g with
         transactions := g.transactions ++ [X12Transaction.create (some (g.resolveOptions arg).toArg)]
         trailer := some (tr.replaceElement (Nat.repr (g.transactions.length + 1)) 1) }) := by
  simp only [X12FunctionalGroup.addTransaction, h, List.length_append, List.length_cons,
    List.length_nil, Nat.zero_add]

/-- `addTransaction` fails exactly when the trailer is still `undefined`. -/
theorem X12FunctionalGroup.addTransaction_none (g : X12FunctionalGroup)
    (arg : Option X12SerializationOptionsArg) (h : g.trailer = none) :
    g.addTransaction arg = .error .typeError := by
  simp only [X12FunctionalGroup.addTransaction, h]

theorem X12FunctionalGroup.trailerCountSynced_setHeader (g g' : X12FunctionalGroup)
    (elements : List String) (arg : Option X12SerializationOptionsArg)
    (h : g.setHeader elements arg = .ok g') : g'.trailerCountSynced := by
  rw [X12FunctionalGroup.setHeader_eq] at h
  cases h
  simp [X12FunctionalGroup.trailerCountSynced, X12Segment.setElements, X12Segment.valueOf]

theorem X12Segment.valueOf_replaceElement_one (tr : X12Segment) (v : String)
    (h : tr.elements ≠ []) : (tr.replaceElement v 1).valueOf 1 = v := by
  cases tr with
  | mk tag elements =>
    cases elements with
    | nil => exact absurd rfl h
    | cons e rest => simp [X12Segment.replaceElement, X12Segment.valueOf]

theorem X12FunctionalGroup.trailerCountSynced_addTransaction (g g₂ : X12FunctionalGroup)
    (t : X12Transaction) (arg : Option X12SerializationOptionsArg)
    (hs : g.trailerCountSynced) (h : g.addTransaction arg = .ok (t, g₂)) :
    g₂.trailerCountSynced := by
  unfold X12FunctionalGroup.trailerCountSynced at hs
  cases htr : g.trailer with
  | none => rw [htr] at hs; exact absurd hs (by simp)
  | some tr =>
    rw [htr] at hs
    rw [X12FunctionalGroup.addTransaction_eq g tr arg htr] at h
    cases h
    have hne : tr.elements ≠ [] := by
      intro hnil
      have : tr.valueOf 1 = "" := by simp [X12Segment.valueOf, hnil]
      rw [hs] at this
      exact natRepr_ne_empty _ this
    simp only [X12FunctionalGroup.trailerCountSynced, List.length_append, List.length_cons,
      List.length_nil, Nat.zero_add]
    rw [X12Segment.valueOf_replaceElement_one tr _ hne]

/-- Fold a sequence of `addTransaction` calls (with the options argument each
call was given), keeping only the group. -/
def addTransactionsFold (g : X12FunctionalGroup)
    (args : List (Option X12SerializationOptionsArg)) : Except X12Error X12FunctionalGroup :=
  args.foldlM (fun g arg => (g.addTransaction arg).map Prod.snd) g

theorem trailerCountSynced_fold (args : List (Option X12SerializationOptionsArg))
    (g : X12FunctionalGroup) (hs : g.trailerCountSynced) :
    ∃ g', addTransactionsFold g args = .ok g' ∧ g'.trailerCountSynced := by
  induction args generalizing g with
  | nil => exact ⟨g, rfl, hs⟩
  | cons arg rest ih =>
    obtain ⟨tr, htr⟩ : ∃ tr, g.trailer = some tr := by
      unfold X12FunctionalGroup.trailerCountSynced at hs
      cases h : g.trailer with
      | none => rw [h] at hs; exact absurd hs (by simp)
      | some tr => exact ⟨tr, rfl⟩
    have hadd := X12FunctionalGroup.addTransaction_eq g tr arg htr
    have hsync := X12FunctionalGroup.trailerCountSynced_addTransaction g _ _ arg hs hadd
    obtain ⟨g', hfold, hgs⟩ := ih _ hsync
    refine ⟨g', ?_, hgs⟩
    unfold addTransactionsFold
    rw [List.foldlM_cons, hadd]
    exact hfold

/-- **C1.** For every `X12FunctionalGroup` on which `setHeader` has been
called, after any sequence of `addTransaction` calls the trailer's first
element (the transaction-count element) equals the number of transactions in
the group, rendered as a decimal string; the invariant is established by
`setHeader` and preserved by every `addTransaction` call. -/
theorem claim1_trailer_count_invariant :
    (∀ (g g' : X12FunctionalGroup) (elements : List String)
       (arg : Option X12SerializationOptionsArg),
       g.setHeader elements arg = .ok g' → g'.trailerCountSynced)
    ∧ (∀ (g g₂ : X12FunctionalGroup) (t : X12Transaction)
         (arg : Option X12SerializationOptionsArg),
         g.trailerCountSynced → g.addTransaction arg = .ok (t, g₂) → g₂.trailerCountSynced)
    ∧ (∀ (g g' : X12FunctionalGroup) (elements : List String)
         (arg : Option X12SerializationOptionsArg)
         (args : List (Option X12SerializationOptionsArg)),
         g.setHeader elements arg = .ok g' →
         ∃ g'', addTransactionsFold g' args = .ok g'' ∧ g''.trailerCountSynced) :=
  ⟨fun g g' elements arg h => X12FunctionalGroup.trailerCountSynced_setHeader g g' elements arg h,
   fun g g₂ t arg hs h => X12FunctionalGroup.trailerCountSynced_addTransaction g g₂ t arg hs h,
   fun g _g' elements arg args h =>
     trailerCountSynced_fold args _
       (X12FunctionalGroup.trailerCountSynced_setHeader g _ elements arg h)⟩

/-- Witness for C1: a concrete group, `setHeader` then two `addTransaction`
calls, whose trailer count stays synchronized. -/
theorem claim1_trailer_count_invariant_witness :
    ∃ g'', addTransactionsFold
      { header := some ((X12Segment.mk "GS" []).setElements ["PO", "SRC", "DEST", "20260101", "1200", "42"])
        trailer := some ((X12Segment.mk "GE" []).setElements ["0", "42"])
        transactions := []
        options := defaultSerializationOptions none } [none, none] = .ok g''
      ∧ g''.trailerCountSynced :=
  claim1_trailer_count_invariant.2.2
    (X12FunctionalGroup.create none) _
    ["PO", "SRC", "DEST", "20260101", "1200", "42"] none [none, none] rfl

/-- **C8.** The header must be set before children are added: after
`setHeader`, `addTransaction`'s update of the trailer count element always
succeeds (the trailer dereference is defined) — including after further
`addTransaction` calls — while calling `addTransaction` on a freshly
constructed group, before `setHeader`, fails because the trailer (whose
initialization depends on header fields) does not yet exist. -/
theorem claim8_header_before_children :
    (∀ (g g' : X12FunctionalGroup) (elements : List String)
       (arg arg₂ : Option X12SerializationOptionsArg),
       g.setHeader elements arg = .ok g' → ∃ r, g'.addTransaction arg₂ = .ok r)
    ∧ (∀ (g g₂ : X12FunctionalGroup) (t : X12Transaction)
         (arg arg₂ : Option X12SerializationOptionsArg),
         g.addTransaction arg = .ok (t, g₂) → ∃ r, g₂.addTransaction arg₂ = .ok r)
    ∧ (∀ (arg arg₂ : Option X12SerializationOptionsArg),
         (X12FunctionalGroup.create arg).addTransaction arg₂ = .error .typeError) := by
  refine ⟨?_, ?_, ?_⟩
  · intro g g' elements arg arg₂ h
    rw [X12FunctionalGroup.setHeader_eq] at h
    cases h
    exact ⟨_, X12FunctionalGroup.addTransaction_eq _ _ _ rfl⟩
  · intro g g₂ t arg arg₂ h
    cases htr : g.trailer with
    | none => rw [X12FunctionalGroup.addTransaction_none g arg htr] at h; cases h
    | some tr =>
      rw [X12FunctionalGroup.addTransaction_eq g tr arg htr] at h
      cases h
      exact ⟨_, X12FunctionalGroup.addTransaction_eq _ _ _ rfl⟩
  · intro arg arg₂
    exact X12FunctionalGroup.addTransaction_none _ _ rfl

/-- Witness for C8: on a concrete group, `addTransaction` succeeds right
after `setHeader`. -/
theorem claim8_header_before_children_witness :
    ∃ r, ({ header := some ((X12Segment.mk "GS" []).setElements ["PO", "S", "D", "20260101", "1200", "7"])
            trailer := some ((X12Segment.mk "GE" []).setElements ["0", "7"])
            transactions := []
            options := defaultSerializationOptions none } : X12FunctionalGroup).addTransaction none
          = .ok r :=
  claim8_header_before_children.1 (X12FunctionalGroup.create none) _
    ["PO", "S", "D", "20260101", "1200", "7"] none none rfl

/-- **C10.** Every `setHeader(elements)` call establishes header and trailer
together: afterwards the header is a GS segment holding exactly the given
elements and the trailer is a GE segment whose first element is the current
transaction count as a decimal string and whose second element is the value
of the header's sixth element (the group control number). -/
theorem claim10_setHeader_pairs_header_and_trailer (g : X12FunctionalGroup)
    (elements : List String) (arg : Option X12SerializationOptionsArg)
    (h6 : 5 < elements.length) :
    g.setHeader elements arg = .ok { g with
      header := some ⟨"GS", elements.map X12Element.mk⟩
      trailer := some ⟨"GE", [⟨Nat.repr g.transactions.length⟩, ⟨elements.get ⟨5, h6⟩⟩]⟩ } := by
  have hv : ((X12Segment.mk "GS" []).setElements elements).valueOf 6 = elements.get ⟨5, h6⟩ := by
    simp [X12Segment.setElements, X12Segment.valueOf, List.get?_eq_getElem?, List.getElem?_map,
      List.getElem?_eq_getElem h6, List.get_eq_getElem]
  rw [X12FunctionalGroup.setHeader_eq, hv]
  rfl

/-- Witness for C10 at a concrete group and element list. -/
theorem claim10_setHeader_pairs_header_and_trailer_witness :
    (X12FunctionalGroup.create none).setHeader ["PO", "S", "D", "20260101", "1200", "99"] none
      = .ok { (X12FunctionalGroup.create none) with
          header := some ⟨"GS", (["PO", "S", "D", "20260101", "1200", "99"].map X12Element.mk)⟩
          trailer := some ⟨"GE", [⟨Nat.repr 0⟩, ⟨"99"⟩]⟩ } :=
  claim10_setHeader_pairs_header_and_trailer (X12FunctionalGroup.create none)
    ["PO", "S", "D", "20260101", "1200", "99"] none (by decide)

/-! ## Serialization shape of the container toString -/

/-- Join a list of string pieces, inserting the separator between adjacent
pieces only (in particular, no separator after the last piece). -/
def joinSep (sep : String) : List String → String
  | [] => ""
  | [s] => s
  | s :: r :: rest => s ++ sep ++ joinSep sep (r :: rest)

/-- Each string piece followed by the separator. -/
def concatEach (sep : String) : List String → String
  | [] => ""
  | s :: rest => s ++ sep ++ concatEach sep rest

theorem joinSep_cons (sep s : String) (r : List String) (h : r ≠ []) :
    joinSep sep (s :: r) = s ++ sep ++ joinSep sep r := by
  cases r with
  | nil => exact absurd rfl h
  | cons a l => rfl

theorem joinSep_structure (e trs : String) (ss : List String) :
    ∀ hstr : String, hstr ++ e ++ concatEach e ss ++ trs = joinSep e (hstr :: ss ++ [trs]) := by
  induction ss with
  | nil =>
    intro hstr
    show hstr ++ e ++ "" ++ trs = joinSep e [hstr, trs]
    simp [joinSep]
  | cons s ss ih =>
    intro hstr
    show hstr ++ e ++ (s ++ e ++ concatEach e ss) ++ trs
        = hstr ++ e ++ joinSep e (s :: ss ++ [trs])
    rw [← ih s]
    exact String.append_assoc _ _ _

theorem foldlM_toStrings (o : X12SerializationOptions) (e : String)
    (ts : List X12Transaction) :
    ∀ (ss : List String), ts.mapM (fun t => t.toString o) = .ok ss →
    ∀ acc : String,
      ts.foldlM (fun acc t => do
          let s ← t.toString o
          pure (acc ++ s ++ e)) acc = .ok (acc ++ concatEach e ss) := by
  induction ts with
  | nil =>
    intro ss hts acc
    cases hts
    show Except.ok acc = Except.ok (acc ++ "")
    rw [String.append_empty]
  | cons t ts ih =>
    intro ss hts acc
    rw [List.mapM_cons] at hts
    cases hT : t.toString o with
    | error err => rw [hT] at hts; exact Except.noConfusion hts
    | ok s =>
      rw [hT] at hts
      cases hR : ts.mapM (fun t => t.toString o) with
      | error err =>
        rw [hR] at hts
        exact Except.noConfusion hts
      | ok rest =>
        rw [hR] at hts
        have hss : ss = s :: rest := by
          have h2 : Except.ok (s :: rest) = (Except.ok ss : Except X12Error (List String)) := hts
          exact (Except.ok.inj h2).symm
        subst hss
        rw [List.foldlM_cons, hT]
        show ts.foldlM _ (acc ++ s ++ e) = _
        rw [ih rest hR (acc ++ s ++ e)]
        show Except.ok _ = Except.ok (acc ++ (s ++ e ++ concatEach e rest))
        rw [← String.append_assoc, ← String.append_assoc]

/-- `toString` on a group with header and trailer present, all of whose
transactions serialize, returns the pieces joined with the conditional
end-of-line separator between adjacent pieces. -/
theorem X12FunctionalGroup.toString_ok (g : X12FunctionalGroup) (h tr : X12Segment)
    (arg : Option X12SerializationOptionsArg) (ss : List String)
    (hh : g.header = some h) (ht : g.trailer = some tr)
    (hts : g.transactions.mapM (fun t => t.toString (g.resolveOptions arg)) = .ok ss) :
    g.toString arg = .ok (joinSep
      (if (g.resolveOptions arg).format then (g.resolveOptions arg).endOfLine else "")
      (h.toString (g.resolveOptions arg) :: ss ++ [tr.toString (g.resolveOptions arg)])) := by
  unfold X12FunctionalGroup.toString
  rw [hh]
  show (g.transactions.foldlM _ _ >>= fun edi =>
    match g.trailer with
    | none => Except.error X12Error.typeError
    | some tr => pure (edi ++ tr.toString (g.resolveOptions arg))) = _
  rw [foldlM_toStrings (g.resolveOptions arg)
    (if (g.resolveOptions arg).format then (g.resolveOptions arg).endOfLine else "")
    g.transactions ss hts, ht]
  show Except.ok _ = Except.ok _
  rw [joinSep_structure]

/-- A concrete complete transaction used by witnesses. -/
def egTransaction : X12Transaction :=
  { header := some ⟨"ST", [⟨"850"⟩, ⟨"0001"⟩]⟩
    trailer := some ⟨"SE", [⟨"0001"⟩]⟩
    segments := [⟨"BEG", [⟨"00"⟩]⟩]
    options := defaultSerializationOptions none }

/-- A concrete complete functional group used by witnesses. -/
def egGroup : X12FunctionalGroup :=
  { header := some ⟨"GS", [⟨"PO"⟩, ⟨"S"⟩, ⟨"D"⟩, ⟨"20260101"⟩, ⟨"1200"⟩, ⟨"42"⟩]⟩
    trailer := some ⟨"GE", [⟨"1"⟩, ⟨"42"⟩]⟩
    transactions := [egTransaction]
    options := defaultSerializationOptions none }

/-- **C4.** For every functional group with header and trailer set whose
transactions all serialize, `toString` returns the serialized header, each
transaction's serialized form in order, and the serialized trailer, with the
`endOfLine` string inserted between adjacent pieces exactly when
`options.format` is true and no insertion after the trailer. -/
theorem claim4_toString_concatenation (g : X12FunctionalGroup) (h tr : X12Segment)
    (arg : Option X12SerializationOptionsArg) (ss : List String)
    (hh : g.header = some h) (ht : g.trailer = some tr)
    (hts : g.transactions.mapM (fun t => t.toString (g.resolveOptions arg)) = .ok ss) :
    g.toString arg = .ok (joinSep
      (if (g.resolveOptions arg).format then (g.resolveOptions arg).endOfLine else "")
      (h.toString (g.resolveOptions arg) :: ss ++ [tr.toString (g.resolveOptions arg)])) :=
  X12FunctionalGroup.toString_ok g h tr arg ss hh ht hts

/-- Witness for C4 on a concrete group with one transaction. -/
theorem claim4_toString_concatenation_witness :
    egGroup.toString none = .ok (joinSep
      (if (egGroup.resolveOptions none).format then (egGroup.resolveOptions none).endOfLine else "")
      (X12Segment.toString ⟨"GS", [⟨"PO"⟩, ⟨"S"⟩, ⟨"D"⟩, ⟨"20260101"⟩, ⟨"1200"⟩, ⟨"42"⟩]⟩
          (egGroup.resolveOptions none)
        :: ["ST*850*0001~BEG*00~SE*0001~"]
        ++ [X12Segment.toString ⟨"GE", [⟨"1"⟩, ⟨"42"⟩]⟩ (egGroup.resolveOptions none)])) :=
  claim4_toString_concatenation egGroup _ _ none ["ST*850*0001~BEG*00~SE*0001~"] rfl rfl rfl

/-- A concrete group whose trailer count element ("5") disagrees with its
actual transaction count (zero): a hand-built inconsistent tree. -/
def egBadCountGroup : X12FunctionalGroup :=
  { header := some ⟨"GS", [⟨"PO"⟩, ⟨"S"⟩, ⟨"D"⟩, ⟨"20260101"⟩, ⟨"1200"⟩, ⟨"42"⟩]⟩
    trailer := some ⟨"GE", [⟨"5"⟩, ⟨"42"⟩]⟩
    transactions := []
    options := defaultSerializationOptions none }

/-- **C5.** Generation does not recompute trailer count fields: on a group
whose trailer count element differs from the number of transactions,
`toString` still emits the trailer's literal element values unchanged — the
inconsistency appears verbatim in the output, with no auto-repair and no
structural validation. -/
theorem claim5_no_trailer_count_recompute (g : X12FunctionalGroup) (h tr : X12Segment)
    (arg : Option X12SerializationOptionsArg) (ss : List String)
    (hh : g.header = some h) (ht : g.trailer = some tr)
    (hts : g.transactions.mapM (fun t => t.toString (g.resolveOptions arg)) = .ok ss)
    (hmismatch : tr.valueOf 1 ≠ Nat.repr g.transactions.length) :
    g.toString arg = .ok (joinSep
      (if (g.resolveOptions arg).format then (g.resolveOptions arg).endOfLine else "")
      (h.toString (g.resolveOptions arg) :: ss ++ [tr.toString (g.resolveOptions arg)])) :=
  X12FunctionalGroup.toString_ok g h tr arg ss hh ht hts

/-- Witness for C5: the hand-built inconsistent group serializes with the
wrong count "5" emitted verbatim. -/
theorem claim5_no_trailer_count_recompute_witness :
    egBadCountGroup.toString none = .ok (joinSep
      (if (egBadCountGroup.resolveOptions none).format
        then (egBadCountGroup.resolveOptions none).endOfLine else "")
      (X12Segment.toString ⟨"GS", [⟨"PO"⟩, ⟨"S"⟩, ⟨"D"⟩, ⟨"20260101"⟩, ⟨"1200"⟩, ⟨"42"⟩]⟩
          (egBadCountGroup.resolveOptions none)
        :: [] ++ [X12Segment.toString ⟨"GE", [⟨"5"⟩, ⟨"42"⟩]⟩ (egBadCountGroup.resolveOptions none)])) :=
  claim5_no_trailer_count_recompute egBadCountGroup _ _ none [] rfl rfl rfl (by decide)

/-- **C6 (counterexample).** `toString` on a freshly constructed group (no
header set) fails with a `TypeError` from dereferencing the `undefined`
header — not with the `IncompleteContainerError` the claim names. -/
theorem claim6_counterexample :
    (X12FunctionalGroup.create none).toString none = .error X12Error.typeError
    ∧ (X12FunctionalGroup.create none).toString none ≠ .error X12Error.incompleteContainerError :=
  ⟨rfl, fun h => X12Error.noConfusion (Except.error.inj h)⟩

/-- **C6 (amended).** Generation never fails on a well-formed tree (header
and trailer present and every transaction serializable); invoking `toString`
on a container whose required header is missing always fails, but by raising
a `TypeError` from the undefined-header dereference rather than an
`IncompleteContainerError`. -/
theorem claim6_generation_failure_mode :
    (∀ (g : X12FunctionalGroup) (h tr : X12Segment)
       (arg : Option X12SerializationOptionsArg) (ss : List String),
       g.header = some h → g.trailer = some tr →
       g.transactions.mapM (fun t => t.toString (g.resolveOptions arg)) = .ok ss →
       ∃ s, g.toString arg = .ok s)
    ∧ (∀ (g : X12FunctionalGroup) (arg : Option X12SerializationOptionsArg),
       g.header = none → g.toString arg = .error .typeError) := by
  constructor
  · intro g h tr arg ss hh ht hts
    exact ⟨_, X12FunctionalGroup.toString_ok g h tr arg ss hh ht hts⟩
  · intro g arg hnone
    unfold X12FunctionalGroup.toString
    rw [hnone]

/-- Witness for C6 (amended): generation succeeds on the concrete well-formed
group. -/
theorem claim6_generation_failure_mode_witness :
    ∃ s, egGroup.toString none = .ok s :=
  claim6_generation_failure_mode.1 egGroup _ _ none ["ST*850*0001~BEG*00~SE*0001~"] rfl rfl rfl

/-! ## Frame property of toString -/

/-- The statement-by-statement translation of `toString` threading the
receiver object through every step: the method body only reads `this` (the
source contains no assignment to any `this` field), so each step passes the
receiver along. -/
def X12FunctionalGroup.toStringThreaded (g : X12FunctionalGroup)
    (arg : Option X12SerializationOptionsArg) :
    Except X12Error (String × X12FunctionalGroup) :=
  let o := g.resolveOptions arg
  match g.header with
  | none => .error .typeError
  | some h => do
    let p ← g.transactions.foldlM
      (fun (p : String × X12FunctionalGroup) t => do
        let s ← t.toString o
        pure (p.1 ++ s ++ (if o.format then o.endOfLine else ""), p.2))
      (h.toString o ++ (if o.format then o.endOfLine else ""), g)
    match p.2.trailer with
    | none => .error .typeError
    | some tr => pure (p.1 ++ tr.toString o, p.2)

theorem foldlM_threaded (o : X12SerializationOptions) (e : String)
    (ts : List X12Transaction) (g : X12FunctionalGroup) :
    ∀ acc : String,
      ts.foldlM (fun (p : String × X12FunctionalGroup) t => do
          let s ← t.toString o
          pure (p.1 ++ s ++ e, p.2)) (acc, g)
        = (ts.foldlM (fun (acc : String) (t : X12Transaction) => do
            let s ← t.toString o
            pure (acc ++ s ++ e)) acc).map (fun x => (x, g)) := by
  induction ts with
  | nil => intro acc; rfl
  | cons t ts ih =>
    intro acc
    rw [List.foldlM_cons, List.foldlM_cons]
    cases hT : t.toString o with
    | error err => rfl
    | ok s => exact ih (acc ++ s ++ e)

/-- `toStringThreaded` returns the receiver it was given, packaged with the
same string `toString` computes. -/
theorem X12FunctionalGroup.toStringThreaded_eq (g : X12FunctionalGroup)
    (arg : Option X12SerializationOptionsArg) :
    g.toStringThreaded arg = (g.toString arg).map (fun s => (s, g)) := by
  unfold X12FunctionalGroup.toStringThreaded X12FunctionalGroup.toString
  cases hh : g.header with
  | none => rfl
  | some h =>
    dsimp only
    rw [foldlM_threaded]
    cases hF : List.foldlM
      (fun (acc : String) (t : X12Transaction) => do
        let s ← t.toString (g.resolveOptions arg)
        pure (acc ++ s ++ (if (g.resolveOptions arg).format then (g.resolveOptions arg).endOfLine else "")))
      (h.toString (g.resolveOptions arg)
        ++ (if (g.resolveOptions arg).format then (g.resolveOptions arg).endOfLine else ""))
      g.transactions with
    | error err => rfl
    | ok edi =>
      show (match g.trailer with
        | none => Except.error X12Error.typeError
        | some tr => Except.ok (edi ++ tr.toString (g.resolveOptions arg), g))
        = Except.map (fun s => (s, g)) (match g.trailer with
        | none => Except.error X12Error.typeError
        | some tr => Except.ok (edi ++ tr.toString (g.resolveOptions arg)))
      cases g.trailer with
      | none => rfl
      | some tr => rfl

/-- **C7.** `toString` leaves the group unchanged: in the receiver-threaded
translation of the method, the resulting receiver is the original group — its
header, trailer (count element included), transaction sequence and stored
options are identical before and after the call — a second call with the same
options returns the same string, and the returned string is `toString`'s
value. -/
theorem claim7_toString_frame (g g' : X12FunctionalGroup) (s : String)
    (arg : Option X12SerializationOptionsArg)
    (hcall : g.toStringThreaded arg = .ok (s, g')) :
    g' = g ∧ g'.header = g.header ∧ g'.trailer = g.trailer
    ∧ g'.transactions = g.transactions ∧ g'.options = g.options
    ∧ g.toString arg = .ok s ∧ g'.toStringThreaded arg = .ok (s, g') := by
  rw [X12FunctionalGroup.toStringThreaded_eq] at hcall
  cases hS : g.toString arg with
  | error err => rw [hS] at hcall; exact Except.noConfusion hcall
  | ok s₀ =>
    rw [hS] at hcall
    have h2 : Except.ok (s₀, g) = (Except.ok (s, g') : Except X12Error (String × X12FunctionalGroup)) :=
      hcall
    have h3 := Except.ok.inj h2
    have hs : s = s₀ := (congrArg Prod.fst h3).symm
    have hg : g' = g := (congrArg Prod.snd h3).symm
    refine ⟨hg, ?_, ?_, ?_, ?_, ?_, ?_⟩
    · rw [hg]
    · rw [hg]
    · rw [hg]
    · rw [hg]
    · rw [hs]
    · rw [X12FunctionalGroup.toStringThreaded_eq, hg, hS, hs]
      rfl

/-- Witness for C7 on the concrete group. -/
theorem claim7_toString_frame_witness :
    egGroup = egGroup ∧ egGroup.header = egGroup.header ∧ egGroup.trailer = egGroup.trailer
    ∧ egGroup.transactions = egGroup.transactions ∧ egGroup.options = egGroup.options
    ∧ egGroup.toString none = .ok "GS*PO*S*D*20260101*1200*42~ST*850*0001~BEG*00~SE*0001~GE*1*42~"
    ∧ egGroup.toStringThreaded none
        = .ok ("GS*PO*S*D*20260101*1200*42~ST*850*0001~BEG*00~SE*0001~GE*1*42~", egGroup) :=
  claim7_toString_frame egGroup egGroup
    "GS*PO*S*D*20260101*1200*42~ST*850*0001~BEG*00~SE*0001~GE*1*42~" none rfl

/-! ## Content of the JSON notational mirror -/

/-- The per-transaction body of `toJSON`'s loop, as a named function: for a
transaction with a header, the header's raw values and each body segment's
tag with its raw values. -/
def jsonOfTransaction (t : X12Transaction) : Except X12Error JSEDITransaction :=
  match t.header with
  | none => .error X12Error.typeError
  | some th =>
    .ok { header := th.elements.map X12Element.value
          segments := t.segments.map
            (fun s => JSEDISegment.mk s.tag (s.elements.map X12Element.value)) }

theorem mapM_jsonOfTransaction_ok (th : X12Transaction → X12Segment) :
    ∀ ts : List X12Transaction, (∀ t ∈ ts, t.header = some (th t)) →
      ts.mapM jsonOfTransaction = .ok (ts.map (fun t =>
        JSEDITransaction.mk ((th t).elements.map X12Element.value)
          (t.segments.map (fun s => JSEDISegment.mk s.tag (s.elements.map X12Element.value)))))
  | [], _ => rfl
  | t :: ts, hmem => by
      rw [List.mapM_cons]
      have hh : t.header = some (th t) := hmem t (by simp)
      have h1 : jsonOfTransaction t
          = .ok (JSEDITransaction.mk ((th t).elements.map X12Element.value)
              (t.segments.map (fun s => JSEDISegment.mk s.tag (s.elements.map X12Element.value)))) := by
        unfold jsonOfTransaction
        rw [hh]
      rw [h1, mapM_jsonOfTransaction_ok th ts (fun x hx => hmem x (by simp [hx]))]
      rfl

theorem mapM_jsonOfTransaction_map_trailer (f : X12Transaction → Option X12Segment) :
    ∀ ts : List X12Transaction,
      (ts.map (fun t => { t with trailer := f t })).mapM jsonOfTransaction
        = ts.mapM jsonOfTransaction
  | [] => rfl
  | t :: ts => by
      rw [List.map_cons, List.mapM_cons, List.mapM_cons,
        mapM_jsonOfTransaction_map_trailer f ts]
      rfl

/-- **C9.** `toJSON` flattens every element to its raw value string: the
emitted generic mirror holds exactly the group header's element values and,
per transaction in order, its header's element values plus each body
segment's tag and element values; transaction trailer (SE) segments and the
group trailer are not represented at all (replacing them arbitrarily leaves
the output unchanged). -/
theorem claim9_toJSON_flattening :
    (∀ (g : X12FunctionalGroup) (h : X12Segment) (th : X12Transaction → X12Segment),
      g.header = some h → (∀ t ∈ g.transactions, t.header = some (th t)) →
      g.toJSON = .ok
        { header := h.elements.map X12Element.value
          transactions := g.transactions.map (fun t =>
            JSEDITransaction.mk ((th t).elements.map X12Element.value)
              (t.segments.map (fun s => JSEDISegment.mk s.tag (s.elements.map X12Element.value)))) })
    ∧ (∀ (g : X12FunctionalGroup) (x : Option X12Segment)
         (f : X12Transaction → Option X12Segment),
        ({ g with
            trailer := x
            transactions := g.transactions.map (fun t => { t with trailer := f t }) }
          : X12FunctionalGroup).toJSON = g.toJSON) := by
  constructor
  · intro g h th hh hmem
    unfold X12FunctionalGroup.toJSON
    rw [hh]
    show (List.mapM jsonOfTransaction g.transactions) >>= _ = _
    rw [mapM_jsonOfTransaction_ok th g.transactions hmem]
    rfl
  · intro g x f
    unfold X12FunctionalGroup.toJSON
    cases hh : g.header with
    | none => rfl
    | some h =>
      show (List.mapM jsonOfTransaction (g.transactions.map _)) >>= _
        = (List.mapM jsonOfTransaction g.transactions) >>= _
      rw [mapM_jsonOfTransaction_map_trailer]

/-- Witness for C9 on the concrete group. -/
theorem claim9_toJSON_flattening_witness :
    egGroup.toJSON = .ok
      { header := (([⟨"PO"⟩, ⟨"S"⟩, ⟨"D"⟩, ⟨"20260101"⟩, ⟨"1200"⟩, ⟨"42"⟩] : List X12Element).map
          X12Element.value)
        transactions := [egTransaction].map (fun t =>
          JSEDITransaction.mk ((⟨"ST", [⟨"850"⟩, ⟨"0001"⟩]⟩ : X12Segment).elements.map X12Element.value)
            (t.segments.map (fun s => JSEDISegment.mk s.tag (s.elements.map X12Element.value)))) } :=
  claim9_toJSON_flattening.1 egGroup ⟨"GS", [⟨"PO"⟩, ⟨"S"⟩, ⟨"D"⟩, ⟨"20260101"⟩, ⟨"1200"⟩, ⟨"42"⟩]⟩
    (fun _ => ⟨"ST", [⟨"850"⟩, ⟨"0001"⟩]⟩) rfl (by decide)

/-! ## The interchange envelope and document-level serialization -/

/-- Modelled from the spec: an `X12Interchange` — an ISA/IEA-bounded envelope
holding an ordered sequence of functional groups and owning the
detected/assigned delimiter set (its options). -/
structure X12Interchange where
  header : Option X12Segment := none
  trailer : Option X12Segment := none
  functionalGroups : List X12FunctionalGroup := []
  options : X12SerializationOptions
deriving DecidableEq, Repr

/-- Modelled from the spec: the `X12Interchange` constructor. -/
def X12Interchange.create (options : Option X12SerializationOptionsArg) : X12Interchange :=
  { options := defaultSerializationOptions options }

/-- Resolving a fully-supplied options argument returns exactly the options
it came from. -/
theorem defaultSerializationOptions_toArg (o : X12SerializationOptions) :
    defaultSerializationOptions (some o.toArg) = o := rfl

/-- Modelled from the spec: interchange serialization — the same recursive
shape as the functional group's `toString`, over the functional groups, each
serialized with the resolved options. -/
def X12Interchange.toString (i : X12Interchange)
    (options : Option X12SerializationOptionsArg) : Except X12Error String :=
  let o := match options with
    | some arg => defaultSerializationOptions (some arg)
    | none => i.options
  match i.header with
  | none => .error .typeError
  | some h => do
    let edi ← i.functionalGroups.foldlM
      (fun acc fg => do
        let s ← fg.toString (some o.toArg)
        pure (acc ++ s ++ (if o.format then o.endOfLine else "")))
      (h.toString o ++ (if o.format then o.endOfLine else ""))
    match i.trailer with
    | none => .error .typeError
    | some tr => pure (edi ++ tr.toString o)

/-- The delimiter set of a document, as characters: element delimiter,
segment terminator, sub-element delimiter, end-of-line character sequence and
formatting flag (the spec's Delimiter Set). -/
structure Delims where
  ec : Char
  term : Char
  sub : Char
  eol : List Char
  format : Bool
deriving DecidableEq, Repr

/-- The serialization options corresponding to a delimiter set. -/
def optionsOfDelims (d : Delims) : X12SerializationOptions :=
  { elementDelimiter := String.mk [d.ec]
    segmentTerminator := String.mk [d.term]
    subElementDelimiter := String.mk [d.sub]
    endOfLine := String.mk d.eol
    format := d.format }

/-- The end-of-line characters actually emitted: the configured sequence when
`format` is on, nothing otherwise. -/
def eolChars (d : Delims) : List Char := if d.format then d.eol else []

/-- The field strings of a segment, as character lists: the tag followed by
the raw element values. -/
def fieldsOf (s : X12Segment) : List (List Char) :=
  s.tag.data :: s.elements.map (fun e => e.value.data)

/-- Join field character lists with a delimiter between adjacent fields. -/
def joinFields (dl : List Char) : List (List Char) → List Char
  | [] => []
  | [f] => f
  | f :: g :: rest => f ++ dl ++ joinFields dl (g :: rest)

/-- The characters of one serialized segment: joined fields plus the segment
terminator. -/
def segChars (d : Delims) (s : X12Segment) : List Char :=
  joinFields [d.ec] (fieldsOf s) ++ [d.term]

/-- The characters of a serialized segment sequence: each segment's
characters with the end-of-line sequence between adjacent segments. -/
def renderSegsChars (d : Delims) : List X12Segment → List Char
  | [] => []
  | [s] => segChars d s
  | s :: s₂ :: rest => segChars d s ++ eolChars d ++ renderSegsChars d (s₂ :: rest)

/-- The segment sequence of a transaction: header, body, trailer. -/
def X12Transaction.segModel (t : X12Transaction) : List X12Segment :=
  t.header.toList ++ t.segments ++ t.trailer.toList

/-- The segment sequence of a functional group. -/
def X12FunctionalGroup.segModel (g : X12FunctionalGroup) : List X12Segment :=
  g.header.toList ++ g.transactions.flatMap X12Transaction.segModel ++ g.trailer.toList

/-- The segment sequence of an interchange. -/
def X12Interchange.segModel (i : X12Interchange) : List X12Segment :=
  i.header.toList ++ i.functionalGroups.flatMap X12FunctionalGroup.segModel ++ i.trailer.toList

theorem joinFields_cons (dl : List Char) (f : List Char) (fs : List (List Char)) (h : fs ≠ []) :
    joinFields dl (f :: fs) = f ++ dl ++ joinFields dl fs := by
  cases fs with
  | nil => exact absurd rfl h
  | cons g rest => rfl

/-- The characters of `X12Segment.toString`. -/
theorem X12Segment.toString_data_seg (s : X12Segment) (d : Delims) :
    (s.toString (optionsOfDelims d)).data = segChars d s := by
  have aux : ∀ (vs : List String) (acc : String),
      (vs.foldl (fun acc v => acc ++ (optionsOfDelims d).elementDelimiter ++ v) acc).data
        = acc.data ++ (vs.map (fun v => [d.ec] ++ v.data)).flatten := by
    intro vs
    induction vs with
    | nil => intro acc; simp
    | cons v vs ih =>
      intro acc
      rw [List.foldl_cons, ih, List.map_cons, List.flatten_cons]
      simp [String.data_append, optionsOfDelims]
  have aux2 : ∀ (fs : List (List Char)) (tagChars : List Char),
      tagChars ++ (fs.map (fun f => [d.ec] ++ f)).flatten = joinFields [d.ec] (tagChars :: fs) := by
    intro fs
    induction fs with
    | nil => intro tagChars; simp [joinFields]
    | cons f fs ih =>
      intro tagChars
      rw [joinFields_cons _ _ _ (by simp), ← ih f, List.map_cons, List.flatten_cons]
      simp [List.append_assoc]
  unfold X12Segment.toString segChars
  rw [String.data_append, aux]
  unfold fieldsOf
  rw [← aux2]
  simp only [optionsOfDelims, List.map_map]
  rfl

/-! ## Well-formedness of a document tree relative to a delimiter set -/

/-- The control tags that open or close containers. -/
def controlTags : List String := ["ISA", "GS", "ST", "SE", "GE", "IEA"]

/-- A segment is clean when neither its tag nor any element value contains
the element delimiter or the segment terminator. -/
def SegClean (d : Delims) (s : X12Segment) : Prop :=
  (∀ c ∈ s.tag.data, c ≠ d.ec ∧ c ≠ d.term)
  ∧ ∀ e ∈ s.elements, ∀ c ∈ e.value.data, c ≠ d.ec ∧ c ≠ d.term

/-- A usable delimiter set: delimiters distinct from each other and from the
line-ending characters, and a line ending that is LF or CRLF when formatting
is on (and the default LF when it is off, matching what detection infers). -/
def DelimsWF (d : Delims) : Prop :=
  d.ec ≠ d.term
  ∧ d.ec ≠ '\r' ∧ d.ec ≠ '\n' ∧ d.term ≠ '\r' ∧ d.term ≠ '\n'
  ∧ (if d.format then d.eol = ['\n'] ∨ d.eol = ['\r', '\n'] else d.eol = ['\n'])

/-- The fixed X12 widths of the sixteen ISA header elements. -/
def isaWidths : List Nat := [2, 10, 2, 10, 2, 15, 2, 15, 6, 4, 1, 5, 9, 1, 1, 1]

/-- A well-formed ISA header segment: tagged `ISA`, clean, sixteen elements of
the standard fixed widths, the sixteenth holding the sub-element delimiter. -/
structure IsaWF (d : Delims) (s : X12Segment) : Prop where
  tag_eq : s.tag = "ISA"
  clean : SegClean d s
  widths : s.elements.map (fun e => e.value.data.length) = isaWidths
  sub_elem : s.elements.get? 15 = some ⟨String.mk [d.sub]⟩

/-- A well-formed transaction: options matching the delimiter set, ST header,
SE trailer, and clean non-control body segments. -/
structure TxnWF (d : Delims) (t : X12Transaction) : Prop where
  opts_eq : t.options = optionsOfDelims d
  header_st : ∃ st, t.header = some st ∧ st.tag = "ST" ∧ SegClean d st
  trailer_se : ∃ se, t.trailer = some se ∧ se.tag = "SE" ∧ SegClean d se
  body_wf : ∀ s ∈ t.segments, SegClean d s ∧ s.tag ∉ controlTags

/-- A well-formed functional group. -/
structure GroupWF (d : Delims) (g : X12FunctionalGroup) : Prop where
  opts_eq : g.options = optionsOfDelims d
  header_gs : ∃ gs, g.header = some gs ∧ gs.tag = "GS" ∧ SegClean d gs
  trailer_ge : ∃ ge, g.trailer = some ge ∧ ge.tag = "GE" ∧ SegClean d ge
  txns_wf : ∀ t ∈ g.transactions, TxnWF d t

/-- A well-formed interchange. -/
structure InterchangeWF (d : Delims) (i : X12Interchange) : Prop where
  delims_wf : DelimsWF d
  opts_eq : i.options = optionsOfDelims d
  header_isa : ∃ isa, i.header = some isa ∧ IsaWF d isa
  trailer_iea : ∃ iea, i.trailer = some iea ∧ iea.tag = "IEA" ∧ SegClean d iea
  groups_wf : ∀ fg ∈ i.functionalGroups, GroupWF d fg

/-! ## Flattening serialized containers to character sequences -/

theorem renderSegsChars_cons (d : Delims) (s : X12Segment) (r : List X12Segment) (h : r ≠ []) :
    renderSegsChars d (s :: r) = segChars d s ++ eolChars d ++ renderSegsChars d r := by
  cases r with
  | nil => exact absurd rfl h
  | cons s₂ rest => rfl

theorem renderSegsChars_append (d : Delims) (B : List X12Segment) (hB : B ≠ []) :
    ∀ A : List X12Segment, A ≠ [] →
      renderSegsChars d (A ++ B) = renderSegsChars d A ++ eolChars d ++ renderSegsChars d B := by
  intro A
  induction A with
  | nil => intro hA; exact absurd rfl hA
  | cons s A ih =>
    intro _
    cases A with
    | nil =>
      cases B with
      | nil => exact absurd rfl hB
      | cons b B' => rfl
    | cons s₂ A' =>
      show segChars d s ++ eolChars d ++ renderSegsChars d ((s₂ :: A') ++ B)
        = (segChars d s ++ eolChars d ++ renderSegsChars d (s₂ :: A'))
          ++ eolChars d ++ renderSegsChars d B
      rw [ih (by simp)]
      simp [List.append_assoc]

theorem renderSegsChars_concatSegs (d : Delims) (last : X12Segment) :
    ∀ segs : List X12Segment,
      (segs.map (fun s => segChars d s ++ eolChars d)).flatten ++ segChars d last
        = renderSegsChars d (segs ++ [last]) := by
  intro segs
  induction segs with
  | nil => simp [renderSegsChars]
  | cons s segs ih =>
    rw [List.map_cons, List.flatten_cons, List.cons_append,
      renderSegsChars_cons d s (segs ++ [last]) (by simp), ← ih]
    simp [List.append_assoc]

/-- The conditional end-of-line string used during serialization, for options
coming from a delimiter set. -/
theorem eolString_eq (d : Delims) :
    (if (optionsOfDelims d).format then (optionsOfDelims d).endOfLine else "")
      = String.mk (eolChars d) := by
  unfold optionsOfDelims eolChars
  cases d.format with
  | false => rfl
  | true => rfl

/-- A transaction's `toString`, when its shape is well-formed, succeeds and
serializes to the characters of its segment sequence. -/
theorem X12Transaction.toString_data_txn (d : Delims) (t : X12Transaction) (hwf : TxnWF d t) :
    ∃ str, t.toString (optionsOfDelims d) = .ok str
      ∧ str.data = renderSegsChars d t.segModel := by
  obtain ⟨st, hst, _, _⟩ := hwf.header_st
  obtain ⟨se, hse, _, _⟩ := hwf.trailer_se
  have aux : ∀ (segs : List X12Segment) (acc : String),
      (segs.foldl (fun acc s => acc ++ s.toString (optionsOfDelims d)
        ++ (if (optionsOfDelims d).format then (optionsOfDelims d).endOfLine else "")) acc).data
      = acc.data ++ (segs.map (fun s => segChars d s ++ eolChars d)).flatten := by
    intro segs
    induction segs with
    | nil => intro acc; simp
    | cons s segs ih =>
      intro acc
      rw [List.foldl_cons, ih, List.map_cons, List.flatten_cons]
      rw [String.data_append, String.data_append, X12Segment.toString_data_seg, eolString_eq]
      simp [List.append_assoc]
  have hok : t.toString (optionsOfDelims d)
      = .ok ((t.segments.foldl (fun acc s => acc ++ s.toString (optionsOfDelims d)
          ++ (if (optionsOfDelims d).format then (optionsOfDelims d).endOfLine else ""))
          (st.toString (optionsOfDelims d)
            ++ (if (optionsOfDelims d).format then (optionsOfDelims d).endOfLine else "")))
        ++ se.toString (optionsOfDelims d)) := by
    unfold X12Transaction.toString
    rw [hst, hse]
  refine ⟨_, hok, ?_⟩
  rw [String.data_append, aux, String.data_append, X12Segment.toString_data_seg, eolString_eq]
  simp only [X12Transaction.segModel, hst, hse, Option.toList_some, List.append_assoc]
  rw [renderSegsChars_append d (t.segments ++ [se]) (by simp) [st] (by simp),
    ← renderSegsChars_concatSegs]
  rw [X12Segment.toString_data_seg]
  simp [renderSegsChars, List.append_assoc]

/-- The string a transaction serializes to (empty on error). -/
def txnStringOr (o : X12SerializationOptions) (t : X12Transaction) : String :=
  match t.toString o with
  | .ok s => s
  | .error _ => ""

theorem mapM_txnStringOr (d : Delims) :
    ∀ ts : List X12Transaction, (∀ t ∈ ts, TxnWF d t) →
      ts.mapM (fun t => t.toString (optionsOfDelims d))
        = .ok (ts.map (txnStringOr (optionsOfDelims d)))
  | [], _ => rfl
  | t :: ts, h => by
      obtain ⟨str, hok, _⟩ := X12Transaction.toString_data_txn d t (h t (by simp))
      have htx : txnStringOr (optionsOfDelims d) t = str := by
        unfold txnStringOr
        rw [hok]
      rw [List.mapM_cons, hok, mapM_txnStringOr d ts (fun x hx => h x (by simp [hx]))]
      show Except.ok (str :: ts.map (txnStringOr (optionsOfDelims d)))
        = Except.ok ((t :: ts).map (txnStringOr (optionsOfDelims d)))
      rw [List.map_cons, htx]

theorem txnStringOr_data (d : Delims) (t : X12Transaction) (hwf : TxnWF d t) :
    (txnStringOr (optionsOfDelims d) t).data = renderSegsChars d t.segModel := by
  obtain ⟨str, hok, hdata⟩ := X12Transaction.toString_data_txn d t hwf
  unfold txnStringOr
  rw [hok]
  exact hdata

theorem txn_segModel_ne_nil (d : Delims) (t : X12Transaction) (hwf : TxnWF d t) :
    t.segModel ≠ [] := by
  obtain ⟨st, hst, _, _⟩ := hwf.header_st
  simp [X12Transaction.segModel, hst]

theorem joinSep_data (d : Delims) :
    ∀ pieces : List (String × List X12Segment), pieces ≠ [] →
      (∀ p ∈ pieces, p.1.data = renderSegsChars d p.2 ∧ p.2 ≠ []) →
      (joinSep (String.mk (eolChars d)) (pieces.map Prod.fst)).data
        = renderSegsChars d (pieces.flatMap Prod.snd)
  | [], h, _ => absurd rfl h
  | [p], _, hp => by
      show p.1.data = renderSegsChars d (p.2 ++ [])
      rw [List.append_nil]
      exact (hp p (by simp)).1
  | p :: q :: ps, _, hp => by
      have hq : (q :: ps).map Prod.fst ≠ [] := by simp
      show (joinSep (String.mk (eolChars d)) (p.1 :: (q :: ps).map Prod.fst)).data = _
      rw [joinSep_cons _ _ _ hq, String.data_append, String.data_append,
        joinSep_data d (q :: ps) (by simp) (fun x hx => hp x (by simp [hx])),
        (hp p (by simp)).1]
      have hflat : (q :: ps).flatMap Prod.snd ≠ [] := by
        intro hc
        rw [List.flatMap_cons] at hc
        exact (hp q (by simp)).2 (List.append_eq_nil.mp hc).1
      rw [show (p :: q :: ps).flatMap Prod.snd = p.2 ++ (q :: ps).flatMap Prod.snd from by
        rw [List.flatMap_cons]]
      rw [renderSegsChars_append d _ hflat p.2 (hp p (by simp)).2]

/-- A functional group's `toString`, when well-formed, succeeds and
serializes to the characters of its segment sequence. -/
theorem X12FunctionalGroup.toString_data_group (d : Delims) (g : X12FunctionalGroup)
    (hwf : GroupWF d g) :
    ∃ str, g.toString (some (optionsOfDelims d).toArg) = .ok str
      ∧ str.data = renderSegsChars d g.segModel := by
  obtain ⟨gs, hgs, _, _⟩ := hwf.header_gs
  obtain ⟨ge, hge, _, _⟩ := hwf.trailer_ge
  have hts : g.transactions.mapM
      (fun t => t.toString (g.resolveOptions (some (optionsOfDelims d).toArg)))
      = .ok (g.transactions.map (txnStringOr (optionsOfDelims d))) :=
    mapM_txnStringOr d g.transactions hwf.txns_wf
  have hok := X12FunctionalGroup.toString_ok g gs ge (some (optionsOfDelims d).toArg)
    (g.transactions.map (txnStringOr (optionsOfDelims d))) hgs hge hts
  refine ⟨_, hok, ?_⟩
  have hresolve : g.resolveOptions (some (optionsOfDelims d).toArg) = optionsOfDelims d := rfl
  rw [hresolve, eolString_eq]
  have hmapfst :
      ((gs.toString (optionsOfDelims d), [gs])
        :: (g.transactions.map (fun t => (txnStringOr (optionsOfDelims d) t, t.segModel))
          ++ [(ge.toString (optionsOfDelims d), [ge])])).map Prod.fst
      = (gs.toString (optionsOfDelims d)
        :: g.transactions.map (txnStringOr (optionsOfDelims d)))
          ++ [ge.toString (optionsOfDelims d)] := by
    simp [List.map_map]
  have hflatsnd :
      ((gs.toString (optionsOfDelims d), [gs])
        :: (g.transactions.map (fun t => (txnStringOr (optionsOfDelims d) t, t.segModel))
          ++ [(ge.toString (optionsOfDelims d), [ge])])).flatMap Prod.snd
      = g.segModel := by
    have haux : ∀ ts : List X12Transaction,
        (ts.map (fun t => (txnStringOr (optionsOfDelims d) t, t.segModel))).flatMap Prod.snd
          = ts.flatMap X12Transaction.segModel := by
      intro ts
      induction ts with
      | nil => rfl
      | cons t ts ih => simp [List.flatMap_cons, ih]
    simp [X12FunctionalGroup.segModel, hgs, hge, List.flatMap_cons, List.flatMap_append, haux]
  have hpieces : ∀ p ∈ ((gs.toString (optionsOfDelims d), [gs])
      :: (g.transactions.map (fun t => (txnStringOr (optionsOfDelims d) t, t.segModel))
        ++ [(ge.toString (optionsOfDelims d), [ge])])),
      p.1.data = renderSegsChars d p.2 ∧ p.2 ≠ [] := by
    intro p hp
    rcases List.mem_cons.mp hp with hp1 | hp2
    · subst hp1
      exact ⟨X12Segment.toString_data_seg gs d, by simp⟩
    · rcases List.mem_append.mp hp2 with hp3 | hp4
      · obtain ⟨t, ht, hpt⟩ := List.mem_map.mp hp3
        subst hpt
        exact ⟨txnStringOr_data d t (hwf.txns_wf t ht),
          txn_segModel_ne_nil d t (hwf.txns_wf t ht)⟩
      · rw [List.mem_singleton.mp hp4]
        exact ⟨X12Segment.toString_data_seg ge d, by simp⟩
  rw [← hmapfst, joinSep_data d _ (by simp) hpieces, hflatsnd]

/-- The string a functional group serializes to with the given argument
(empty on error). -/
def groupStringOr (arg : Option X12SerializationOptionsArg) (fg : X12FunctionalGroup) : String :=
  match fg.toString arg with
  | .ok s => s
  | .error _ => ""

theorem mapM_groupStringOr (d : Delims) :
    ∀ fgs : List X12FunctionalGroup, (∀ fg ∈ fgs, GroupWF d fg) →
      fgs.mapM (fun fg => fg.toString (some (optionsOfDelims d).toArg))
        = .ok (fgs.map (groupStringOr (some (optionsOfDelims d).toArg)))
  | [], _ => rfl
  | fg :: fgs, h => by
      obtain ⟨str, hok, _⟩ := X12FunctionalGroup.toString_data_group d fg (h fg (by simp))
      have hfg : groupStringOr (some (optionsOfDelims d).toArg) fg = str := by
        unfold groupStringOr
        rw [hok]
      rw [List.mapM_cons, hok, mapM_groupStringOr d fgs (fun x hx => h x (by simp [hx]))]
      show Except.ok (str :: fgs.map (groupStringOr (some (optionsOfDelims d).toArg)))
        = Except.ok ((fg :: fgs).map (groupStringOr (some (optionsOfDelims d).toArg)))
      rw [List.map_cons, hfg]

theorem groupStringOr_data (d : Delims) (fg : X12FunctionalGroup) (hwf : GroupWF d fg) :
    (groupStringOr (some (optionsOfDelims d).toArg) fg).data = renderSegsChars d fg.segModel := by
  obtain ⟨str, hok, hdata⟩ := X12FunctionalGroup.toString_data_group d fg hwf
  unfold groupStringOr
  rw [hok]
  exact hdata

theorem group_segModel_ne_nil (d : Delims) (g : X12FunctionalGroup) (hwf : GroupWF d g) :
    g.segModel ≠ [] := by
  obtain ⟨gs, hgs, _, _⟩ := hwf.header_gs
  simp [X12FunctionalGroup.segModel, hgs]

theorem foldlM_groupStrings (arg : Option X12SerializationOptionsArg) (e : String) :
    ∀ (fgs : List X12FunctionalGroup) (ss : List String),
      fgs.mapM (fun fg => fg.toString arg) = .ok ss →
      ∀ acc : String,
        fgs.foldlM (fun acc fg => do
            let s ← fg.toString arg
            pure (acc ++ s ++ e)) acc = .ok (acc ++ concatEach e ss) := by
  intro fgs
  induction fgs with
  | nil =>
    intro ss hts acc
    cases hts
    show Except.ok acc = Except.ok (acc ++ "")
    rw [String.append_empty]
  | cons fg fgs ih =>
    intro ss hts acc
    rw [List.mapM_cons] at hts
    cases hT : fg.toString arg with
    | error err => rw [hT] at hts; exact Except.noConfusion hts
    | ok s =>
      rw [hT] at hts
      cases hR : fgs.mapM (fun fg => fg.toString arg) with
      | error err =>
        rw [hR] at hts
        exact Except.noConfusion hts
      | ok rest =>
        rw [hR] at hts
        have hss : ss = s :: rest := by
          have h2 : Except.ok (s :: rest) = (Except.ok ss : Except X12Error (List String)) := hts
          exact (Except.ok.inj h2).symm
        subst hss
        rw [List.foldlM_cons, hT]
        show fgs.foldlM _ (acc ++ s ++ e) = _
        rw [ih rest hR (acc ++ s ++ e)]
        show Except.ok _ = Except.ok (acc ++ (s ++ e ++ concatEach e rest))
        rw [← String.append_assoc, ← String.append_assoc]

/-- An interchange's `toString` (with no per-call options), when well-formed,
succeeds and serializes to the characters of its full segment sequence. -/
theorem X12Interchange.toString_data_doc (d : Delims) (i : X12Interchange)
    (hwf : InterchangeWF d i) :
    ∃ str, i.toString none = .ok str ∧ str.data = renderSegsChars d i.segModel := by
  obtain ⟨isa, hisa, hisawf⟩ := hwf.header_isa
  obtain ⟨iea, hiea, _, _⟩ := hwf.trailer_iea
  have hts : i.functionalGroups.mapM
      (fun fg => fg.toString (some (optionsOfDelims d).toArg))
      = .ok (i.functionalGroups.map (groupStringOr (some (optionsOfDelims d).toArg))) :=
    mapM_groupStringOr d i.functionalGroups hwf.groups_wf
  have hok : i.toString none = .ok (joinSep
      (if (optionsOfDelims d).format then (optionsOfDelims d).endOfLine else "")
      ((isa.toString (optionsOfDelims d)
        :: i.functionalGroups.map (groupStringOr (some (optionsOfDelims d).toArg)))
        ++ [iea.toString (optionsOfDelims d)])) := by
    unfold X12Interchange.toString
    rw [hwf.opts_eq, hisa]
    show (i.functionalGroups.foldlM _ _ >>= fun edi =>
      match i.trailer with
      | none => Except.error X12Error.typeError
      | some tr => pure (edi ++ tr.toString (optionsOfDelims d))) = _
    rw [foldlM_groupStrings (some (optionsOfDelims d).toArg)
      (if (optionsOfDelims d).format then (optionsOfDelims d).endOfLine else "")
      i.functionalGroups _ hts, hiea]
    show Except.ok _ = Except.ok _
    rw [joinSep_structure]
  refine ⟨_, hok, ?_⟩
  rw [eolString_eq]
  have hmapfst :
      ((isa.toString (optionsOfDelims d), [isa])
        :: (i.functionalGroups.map
            (fun fg => (groupStringOr (some (optionsOfDelims d).toArg) fg, fg.segModel))
          ++ [(iea.toString (optionsOfDelims d), [iea])])).map Prod.fst
      = (isa.toString (optionsOfDelims d)
        :: i.functionalGroups.map (groupStringOr (some (optionsOfDelims d).toArg)))
          ++ [iea.toString (optionsOfDelims d)] := by
    simp [List.map_map]
  have hflatsnd :
      ((isa.toString (optionsOfDelims d), [isa])
        :: (i.functionalGroups.map
            (fun fg => (groupStringOr (some (optionsOfDelims d).toArg) fg, fg.segModel))
          ++ [(iea.toString (optionsOfDelims d), [iea])])).flatMap Prod.snd
      = i.segModel := by
    have haux : ∀ fgs : List X12FunctionalGroup,
        (fgs.map (fun fg => (groupStringOr (some (optionsOfDelims d).toArg) fg, fg.segModel))).flatMap
            Prod.snd
          = fgs.flatMap X12FunctionalGroup.segModel := by
      intro fgs
      induction fgs with
      | nil => rfl
      | cons fg fgs ih => simp [List.flatMap_cons, ih]
    simp [X12Interchange.segModel, hisa, hiea, List.flatMap_cons, List.flatMap_append, haux]
  have hpieces : ∀ p ∈ ((isa.toString (optionsOfDelims d), [isa])
      :: (i.functionalGroups.map
          (fun fg => (groupStringOr (some (optionsOfDelims d).toArg) fg, fg.segModel))
        ++ [(iea.toString (optionsOfDelims d), [iea])])),
      p.1.data = renderSegsChars d p.2 ∧ p.2 ≠ [] := by
    intro p hp
    rcases List.mem_cons.mp hp with hp1 | hp2
    · subst hp1
      exact ⟨X12Segment.toString_data_seg isa d, by simp⟩
    · rcases List.mem_append.mp hp2 with hp3 | hp4
      · obtain ⟨fg, hfg, hpfg⟩ := List.mem_map.mp hp3
        subst hpfg
        exact ⟨groupStringOr_data d fg (hwf.groups_wf fg hfg),
          group_segModel_ne_nil d fg (hwf.groups_wf fg hfg)⟩
      · rw [List.mem_singleton.mp hp4]
        exact ⟨X12Segment.toString_data_seg iea d, by simp⟩
  rw [← hmapfst, joinSep_data d _ (by simp) hpieces, hflatsnd]

/-! ## The parser: delimiter detection, tokenization, structural assembly -/

/-- Modelled from the spec: delimiter detection from the fixed-width ISA
segment — the element delimiter is the character at offset 3 (right after the
`ISA` tag), the sub-element delimiter at offset 104 (the ISA16 element), the
segment terminator at offset 105 (right after the final ISA element); the
end-of-line convention is inferred by scanning for CRLF versus LF right after
the terminator, defaulting to none. -/
def detectDelimiters (T : List Char) : Except X12Error Delims :=
  match T.get? 3, T.get? 104, T.get? 105 with
  | some ec, some sub, some term =>
    if T.get? 106 = some '\r' ∧ T.get? 107 = some '\n' then
      .ok ⟨ec, term, sub, ['\r', '\n'], true⟩
    else if T.get? 106 = some '\n' then
      .ok ⟨ec, term, sub, ['\n'], true⟩
    else
      .ok ⟨ec, term, sub, ['\n'], false⟩
  | _, _, _ => .error .delimiterDetectionError

/-- Strip one leading end-of-line sequence from a fragment, when present. -/
def stripEol (eol f : List Char) : List Char :=
  if eol.isPrefixOf f then f.drop eol.length else f

/-- Drop the empty trailing fragment produced by the final segment
terminator. -/
def dropTrailingEmpty (frags : List (List Char)) : List (List Char) :=
  if frags.getLast? = some ([] : List Char) then frags.dropLast else frags

/-- Modelled from the spec: tokenization — split the text on the segment
terminator, skip the empty trailing fragment, strip the end-of-line sequence
that follows each terminator, and split each fragment on the element
delimiter into its fields. -/
def tokenize (d : Delims) (T : List Char) : List (List (List Char)) :=
  ((dropTrailingEmpty (T.splitOn d.term)).map (stripEol (eolChars d))).map
    (fun f => f.splitOn d.ec)

/-- Build a segment from a tokenized fragment: the first field is the tag,
the rest are the element values. -/
def segmentOfToken (tok : List (List Char)) : X12Segment :=
  match tok with
  | [] => ⟨"", []⟩
  | tag :: values => ⟨String.mk tag, values.map (fun v => ⟨String.mk v⟩)⟩

/-- The structural-assembly cursor: finished interchanges plus the currently
open interchange, functional group and transaction. -/
structure ParseCursor where
  done : List X12Interchange := []
  isaHeader : Option X12Segment := none
  groupsAcc : List X12FunctionalGroup := []
  gsHeader : Option X12Segment := none
  txnsAcc : List X12Transaction := []
  stHeader : Option X12Segment := none
  bodyAcc : List X12Segment := []
deriving DecidableEq, Repr

/-- Modelled from the spec: one structural-assembly step — recognized control
tags open or close the corresponding container, any other tag is appended as
a body segment of the open transaction; opening a container before its
logical parent is open, or a closing tag without a matching open, is a
structural error (strict mode). -/
def parseStep (o : X12SerializationOptions) (c : ParseCursor) (s : X12Segment) :
    Except X12Error ParseCursor :=
  if s.tag = "ISA" then
    match c.isaHeader with
    | some _ => .error .structuralError
    | none => .ok { c with isaHeader := some s }
  else if s.tag = "GS" then
    match c.isaHeader, c.gsHeader with
    | some _, none => .ok { c with gsHeader := some s }
    | _, _ => .error .structuralError
  else if s.tag = "ST" then
    match c.gsHeader, c.stHeader with
    | some _, none => .ok { c with stHeader := some s, bodyAcc := [] }
    | _, _ => .error .structuralError
  else if s.tag = "SE" then
    match c.stHeader with
    | some st => .ok { c with
        stHeader := none
        bodyAcc := []
        txnsAcc := c.txnsAcc ++ [⟨some st, some s, c.bodyAcc, o⟩] }
    | none => .error .structuralError
  else if s.tag = "GE" then
    match c.gsHeader, c.stHeader with
    | some gs, none => .ok { c with
        gsHeader := none
        txnsAcc := []
        groupsAcc := c.groupsAcc ++ [⟨some gs, some s, c.txnsAcc, o⟩] }
    | _, _ => .error .structuralError
  else if s.tag = "IEA" then
    match c.isaHeader, c.gsHeader with
    | some isa, none => .ok { c with
        isaHeader := none
        groupsAcc := []
        done := c.done ++ [⟨some isa, some s, c.groupsAcc, o⟩] }
    | _, _ => .error .structuralError
  else
    match c.stHeader with
    | some _ => .ok { c with bodyAcc := c.bodyAcc ++ [s] }
    | none => .error .structuralError

/-- Modelled from the spec: structural assembly of a segment sequence —
fold the assembly step over the segments and require every container to be
closed at the end, yielding the sequence of parsed interchanges. -/
def assembleSegments (o : X12SerializationOptions) (segs : List X12Segment) :
    Except X12Error (List X12Interchange) := do
  let c ← segs.foldlM (parseStep o) {}
  match c.isaHeader, c.gsHeader, c.stHeader with
  | none, none, none => .ok c.done
  | _, _, _ => .error .structuralError

/-- Modelled from the spec: the strict-mode parse — detect the delimiters
from the ISA prologue, tokenize, build segments and assemble the interchange
sequence.  (Lenient mode, whose recovery rules the spec leaves open, is not
modelled.) -/
def X12Parser.parse (edi : String) : Except X12Error (List X12Interchange) := do
  let d ← detectDelimiters edi.data
  assembleSegments (optionsOfDelims d) ((tokenize d edi.data).map segmentOfToken)

/-! ## Tokenization inverts serialization -/

theorem joinFields_intercalate (dl : List Char) : ∀ fs, joinFields dl fs = dl.intercalate fs
  | [] => by simp [joinFields, List.intercalate]
  | [f] => by simp [joinFields, List.intercalate]
  | f :: g :: fs => by
      rw [show joinFields dl (f :: g :: fs) = f ++ dl ++ joinFields dl (g :: fs) from rfl,
        joinFields_intercalate dl (g :: fs)]
      unfold List.intercalate
      rw [List.intersperse_cons_cons dl f g fs, List.flatten_cons, List.flatten_cons]
      simp [List.append_assoc]

theorem mem_joinFields (dl : List Char) :
    ∀ (fs : List (List Char)) (c : Char), c ∈ joinFields dl fs → c ∈ dl ∨ ∃ f ∈ fs, c ∈ f
  | [], c, h => by simp [joinFields] at h
  | [f], c, h => Or.inr ⟨f, by simp, h⟩
  | f :: g :: fs, c, h => by
      rcases List.mem_append.mp h with h1 | h2
      · rcases List.mem_append.mp h1 with ha | hb
        · exact Or.inr ⟨f, by simp, ha⟩
        · exact Or.inl hb
      · rcases mem_joinFields dl (g :: fs) c h2 with hd | ⟨f', hf', hc⟩
        · exact Or.inl hd
        · exact Or.inr ⟨f', by simp [hf'], hc⟩

theorem term_notMem_joinFields (d : Delims) (s : X12Segment) (hclean : SegClean d s)
    (hne : d.ec ≠ d.term) : d.term ∉ joinFields [d.ec] (fieldsOf s) := by
  intro hmem
  rcases mem_joinFields [d.ec] (fieldsOf s) d.term hmem with h1 | ⟨f, hf, hc⟩
  · exact hne (List.mem_singleton.mp h1).symm
  · unfold fieldsOf at hf
    rcases List.mem_cons.mp hf with rfl | hf2
    · exact (hclean.1 d.term hc).2 rfl
    · obtain ⟨e, he, rfl⟩ := List.mem_map.mp hf2
      exact (hclean.2 e he d.term hc).2 rfl

theorem ec_notMem_fields (d : Delims) (s : X12Segment) (hclean : SegClean d s) :
    ∀ f ∈ fieldsOf s, d.ec ∉ f := by
  intro f hf hc
  unfold fieldsOf at hf
  rcases List.mem_cons.mp hf with rfl | hf2
  · exact (hclean.1 d.ec hc).1 rfl
  · obtain ⟨e, he, rfl⟩ := List.mem_map.mp hf2
    exact (hclean.2 e he d.ec hc).1 rfl

theorem splitOn_cons_ne (x c : Char) (l : List Char) (h : c ≠ x) :
    (c :: l).splitOn x = (l.splitOn x).modifyHead (c :: ·) := by
  show (c :: l).splitOnP (· == x) = ((l.splitOnP (· == x)).modifyHead (c :: ·))
  rw [List.splitOnP_cons]
  simp [h]

theorem splitOn_front (x : Char) :
    ∀ (pre as : List Char), (∀ c ∈ pre, c ≠ x) →
      (pre ++ as).splitOn x = (as.splitOn x).modifyHead (pre ++ ·)
  | [], as, _ => by
      cases h : as.splitOn x with
      | nil => simpa using h
      | cons a l => simpa using h
  | c :: pre, as, h => by
      rw [List.cons_append, splitOn_cons_ne x c _ (h c (by simp)),
        splitOn_front x pre as (fun u hu => h u (by simp [hu]))]
      cases hL : as.splitOn x with
      | nil => simp
      | cons a l => simp

theorem splitOn_append_cons (x : Char) (xs as : List Char) (h : ∀ c ∈ xs, c ≠ x) :
    (xs ++ x :: as).splitOn x = xs :: as.splitOn x := by
  show (xs ++ x :: as).splitOnP (· == x) = xs :: as.splitOnP (· == x)
  exact List.splitOnP_first _ _ (fun y hy => by simp [h y hy]) x (by simp) as

theorem eol_ne_term (d : Delims) (hd : DelimsWF d) : ∀ c ∈ eolChars d, c ≠ d.term := by
  obtain ⟨_, _, _, htr, htn, heol⟩ := hd
  unfold eolChars
  cases hf : d.format with
  | false => simp
  | true =>
    rw [hf] at heol
    simp only [if_true]
    rcases heol with h1 | h1 <;> rw [h1] <;> intro c hc <;> simp at hc
    · rw [hc]; exact fun hcontra => htn hcontra.symm
    · rcases hc with hc | hc
      · rw [hc]; exact fun hcontra => htr hcontra.symm
      · rw [hc]; exact fun hcontra => htn hcontra.symm

theorem splitOn_renderSegs (d : Delims) (hd : DelimsWF d) :
    ∀ (rest : List X12Segment) (s : X12Segment), (∀ x ∈ s :: rest, SegClean d x) →
      (renderSegsChars d (s :: rest)).splitOn d.term
        = joinFields [d.ec] (fieldsOf s)
          :: (rest.map (fun x => eolChars d ++ joinFields [d.ec] (fieldsOf x)) ++ [[]])
  | [], s, hc => by
      show (joinFields [d.ec] (fieldsOf s) ++ [d.term]).splitOn d.term = _
      rw [show joinFields [d.ec] (fieldsOf s) ++ [d.term]
          = joinFields [d.ec] (fieldsOf s) ++ d.term :: [] from rfl]
      rw [splitOn_append_cons d.term _ _ (fun c hcm hceq =>
        term_notMem_joinFields d s (hc s (by simp)) hd.1 (hceq ▸ hcm))]
      simp
  | s₂ :: rest, s, hc => by
      rw [renderSegsChars_cons d s (s₂ :: rest) (by simp)]
      rw [show segChars d s ++ eolChars d ++ renderSegsChars d (s₂ :: rest)
          = joinFields [d.ec] (fieldsOf s)
            ++ d.term :: (eolChars d ++ renderSegsChars d (s₂ :: rest)) from by
        simp [segChars, List.append_assoc]]
      rw [splitOn_append_cons d.term _ _ (fun c hcm hceq =>
        term_notMem_joinFields d s (hc s (by simp)) hd.1 (hceq ▸ hcm))]
      rw [splitOn_front d.term (eolChars d) _ (eol_ne_term d hd)]
      rw [splitOn_renderSegs d hd rest s₂ (fun x hx => hc x (by
        rcases List.mem_cons.mp hx with h1 | h2
        · simp [h1]
        · simp [h2]))]
      simp

theorem dropTrailingEmpty_concat (f₀ : List Char) (fs : List (List Char)) :
    dropTrailingEmpty (f₀ :: (fs ++ [[]])) = f₀ :: fs := by
  unfold dropTrailingEmpty
  rw [show f₀ :: (fs ++ [[]]) = (f₀ :: fs) ++ [([] : List Char)] from rfl,
    List.getLast?_concat, List.dropLast_concat]
  simp

theorem stripEol_prepend (eol f : List Char) : stripEol eol (eol ++ f) = f := by
  unfold stripEol
  rw [if_pos (by rw [List.isPrefixOf_iff_prefix]; exact List.prefix_append eol f)]
  exact List.drop_left eol f

theorem stripEol_nil (f : List Char) : stripEol [] f = f := by
  unfold stripEol
  simp

theorem stripEol_of_head_ne (c c' : Char) (cs f : List Char) (h : c ≠ c') :
    stripEol (c :: cs) (c' :: f) = c' :: f := by
  unfold stripEol
  rw [if_neg]
  simp only [List.isPrefixOf, Bool.and_eq_true, beq_iff_eq]
  intro hcontra
  exact h hcontra.1

theorem joinFields_head (dl : List Char) (f : List Char) (fs : List (List Char)) :
    ∃ r, joinFields dl (f :: fs) = f ++ r := by
  cases fs with
  | nil => exact ⟨[], (List.append_nil f).symm⟩
  | cons g rest => exact ⟨dl ++ joinFields dl (g :: rest), by simp [joinFields, List.append_assoc]⟩

/-- Tokenizing serialized segments recovers every segment's field strings,
provided the segments are clean and the first segment's tag does not begin
with a line-ending character. -/
theorem tokenize_renderSegs (d : Delims) (hd : DelimsWF d) (s : X12Segment)
    (rest : List X12Segment) (hclean : ∀ x ∈ s :: rest, SegClean d x)
    (c : Char) (cs : List Char) (htag : s.tag.data = c :: cs)
    (hcr : c ≠ '\r') (hcn : c ≠ '\n') :
    tokenize d (renderSegsChars d (s :: rest)) = (s :: rest).map fieldsOf := by
  unfold tokenize
  rw [splitOn_renderSegs d hd rest s hclean, dropTrailingEmpty_concat, List.map_cons,
    List.map_cons, List.map_map, List.map_map]
  have hstrip : stripEol (eolChars d) (joinFields [d.ec] (fieldsOf s))
      = joinFields [d.ec] (fieldsOf s) := by
    obtain ⟨r, hr⟩ := joinFields_head [d.ec] s.tag.data (s.elements.map (fun e => e.value.data))
    unfold fieldsOf
    rw [hr, htag]
    obtain ⟨_, _, _, _, _, heol⟩ := hd
    unfold eolChars
    cases hf : d.format with
    | false => exact stripEol_nil _
    | true =>
      rw [hf] at heol
      simp only [if_true]
      rcases heol with h1 | h1 <;> rw [h1, List.cons_append]
      · exact stripEol_of_head_ne '\n' c _ _ (fun hcontra => hcn hcontra.symm)
      · exact stripEol_of_head_ne '\r' c _ _ (fun hcontra => hcr hcontra.symm)
  have hsplit : ∀ x ∈ s :: rest,
      (joinFields [d.ec] (fieldsOf x)).splitOn d.ec = fieldsOf x := by
    intro x hx
    rw [joinFields_intercalate]
    exact List.splitOn_intercalate _ d.ec (ec_notMem_fields d x (hclean x hx)) (by
      unfold fieldsOf
      simp)
  rw [hstrip, hsplit s (by simp)]
  congr 1
  have : ∀ xs : List X12Segment, (∀ x ∈ xs, SegClean d x) →
      xs.map ((fun f => f.splitOn d.ec) ∘ (fun x =>
        stripEol (eolChars d) (eolChars d ++ joinFields [d.ec] (fieldsOf x))))
      = xs.map fieldsOf := by
    intro xs hxs
    induction xs with
    | nil => rfl
    | cons x xs ih =>
      rw [List.map_cons, List.map_cons, ih (fun u hu => hxs u (by simp [hu]))]
      congr 1
      show (stripEol (eolChars d) (eolChars d ++ joinFields [d.ec] (fieldsOf x))).splitOn d.ec
        = fieldsOf x
      rw [stripEol_prepend, joinFields_intercalate]
      exact List.splitOn_intercalate _ d.ec (ec_notMem_fields d x (hxs x (by simp))) (by
        unfold fieldsOf
        simp)
  exact this rest (fun u hu => hclean u (by simp [hu]))

/-- Building a segment back from its field strings recovers the segment. -/
theorem segmentOfToken_fieldsOf (s : X12Segment) : segmentOfToken (fieldsOf s) = s := by
  have aux : ∀ es : List X12Element,
      (es.map (fun e => e.value.data)).map (fun v => (⟨String.mk v⟩ : X12Element)) = es := by
    intro es
    induction es with
    | nil => rfl
    | cons e es ih =>
      rw [List.map_cons, List.map_cons, ih]
  cases s with
  | mk tag elements =>
    show X12Segment.mk (String.mk tag.data)
      ((elements.map (fun e => e.value.data)).map (fun v => ⟨String.mk v⟩)) = _
    rw [aux]

/-! ## Delimiter detection recovers the delimiter set -/

theorem joinFields_eq_flatten (dl : List Char) :
    ∀ (f : List Char) (fs : List (List Char)),
      joinFields dl (f :: fs) = f ++ (fs.map (fun g => dl ++ g)).flatten
  | _, [] => by simp [joinFields]
  | f, g :: fs => by
      rw [joinFields_cons dl f (g :: fs) (by simp), joinFields_eq_flatten dl g fs]
      simp [List.append_assoc]

theorem isa_joinFields_facts (d : Delims) (isa : X12Segment) (hwf : IsaWF d isa) :
    (joinFields [d.ec] (fieldsOf isa)).length = 105
    ∧ (joinFields [d.ec] (fieldsOf isa)).get? 3 = some d.ec
    ∧ (joinFields [d.ec] (fieldsOf isa)).get? 104 = some d.sub := by
  have hw := hwf.widths
  have hlen16 : isa.elements.length = 16 := by
    have h := congrArg List.length hw
    simpa using h
  have hvals_len : (isa.elements.map (fun e => e.value.data)).length = 16 := by
    simp [hlen16]
  have hvals_w : (isa.elements.map (fun e => e.value.data)).map List.length = isaWidths := by
    rw [List.map_map]
    exact hw
  have hjf : joinFields [d.ec] (fieldsOf isa)
      = isa.tag.data
        ++ ((isa.elements.map (fun e => e.value.data)).map (fun g => [d.ec] ++ g)).flatten := by
    unfold fieldsOf
    rw [joinFields_eq_flatten]
  have htag : isa.tag.data = ['I', 'S', 'A'] := by rw [hwf.tag_eq]
  have h15lt : 15 < (isa.elements.map (fun e => e.value.data)).length := by
    rw [hvals_len]
    omega
  have hdrop : (isa.elements.map (fun e => e.value.data)).drop 15 = [[d.sub]] := by
    rw [List.drop_eq_getElem_cons h15lt]
    have h16 : (isa.elements.map (fun e => e.value.data)).drop 16 = [] :=
      List.drop_eq_nil_of_le (by rw [hvals_len])
    rw [h16]
    have hg : (isa.elements.map (fun e => e.value.data)).get? 15 = some [d.sub] := by
      rw [List.get?_eq_getElem?, List.getElem?_map,
        show isa.elements[15]? = isa.elements.get? 15 from (List.get?_eq_getElem? isa.elements 15).symm,
        hwf.sub_elem]
      rfl
    rw [List.get?_eq_getElem?, List.getElem?_eq_getElem h15lt] at hg
    rw [Option.some.inj hg]
  have hsplitv : isa.elements.map (fun e => e.value.data)
      = (isa.elements.map (fun e => e.value.data)).take 15 ++ [[d.sub]] := by
    conv_lhs => rw [← List.take_append_drop 15 (isa.elements.map (fun e => e.value.data))]
    rw [hdrop]
  have htakew : ((isa.elements.map (fun e => e.value.data)).take 15).map List.length
      = isaWidths.take 15 := by
    rw [List.map_take, hvals_w]
  have hYlen : (((isa.elements.map (fun e => e.value.data)).take 15).map
      (fun g => [d.ec] ++ g)).flatten.length = 100 := by
    rw [List.length_flatten, List.map_map]
    have hfn : (List.length ∘ fun g : List Char => [d.ec] ++ g)
        = ((fun n => n + 1) ∘ List.length) := by
      funext g
      simp [Nat.add_comm]
    rw [hfn, ← List.map_map, htakew]
    decide
  have hX : ((isa.elements.map (fun e => e.value.data)).map (fun g => [d.ec] ++ g)).flatten
      = (((isa.elements.map (fun e => e.value.data)).take 15).map
          (fun g => [d.ec] ++ g)).flatten ++ [d.ec, d.sub] := by
    conv_lhs => rw [hsplitv]
    rw [List.map_append, List.flatten_append]
    simp
  have hXlen : ((isa.elements.map (fun e => e.value.data)).map (fun g => [d.ec] ++ g)).flatten.length
      = 102 := by
    rw [hX, List.length_append, hYlen]
    rfl
  refine ⟨?_, ?_, ?_⟩
  · rw [hjf, List.length_append, htag, hXlen]
    rfl
  · rw [hjf, htag]
    obtain ⟨v₀, vtail, hv⟩ : ∃ a l, isa.elements.map (fun e => e.value.data) = a :: l := by
      cases hc : isa.elements.map (fun e => e.value.data) with
      | nil => rw [hc] at hvals_len; exact absurd hvals_len (by simp)
      | cons a l => exact ⟨a, l, rfl⟩
    rw [hv, List.map_cons, List.flatten_cons]
    rfl
  · rw [hjf]
    rw [List.get?_eq_getElem?, List.getElem?_append_right (by rw [htag]; simp)]
    rw [htag]
    show ((isa.elements.map (fun e => e.value.data)).map (fun g => [d.ec] ++ g)).flatten[101]?
      = some d.sub
    rw [hX, List.getElem?_append_right (by rw [hYlen]; omega)]
    rw [hYlen]
    rfl

theorem renderSegsChars_head (d : Delims) (s : X12Segment) (rest : List X12Segment)
    (c : Char) (cs : List Char) (htag : s.tag.data = c :: cs) :
    ∃ tl, renderSegsChars d (s :: rest) = c :: tl := by
  have hseg : ∃ r, segChars d s = c :: r := by
    obtain ⟨r, hr⟩ := joinFields_head [d.ec] s.tag.data (s.elements.map (fun e => e.value.data))
    refine ⟨cs ++ r ++ [d.term], ?_⟩
    unfold segChars fieldsOf
    rw [hr, htag]
    simp [List.append_assoc]
  obtain ⟨r, hr⟩ := hseg
  cases rest with
  | nil => exact ⟨r, hr⟩
  | cons s₂ rest' =>
    refine ⟨r ++ eolChars d ++ renderSegsChars d (s₂ :: rest'), ?_⟩
    rw [renderSegsChars_cons d s _ (by simp), hr]
    simp [List.append_assoc]

/-- The first character after the ISA segment's terminator in an unformatted
document is the first character of the next segment's tag (a G or an I), so
end-of-line inference correctly reports no line ending. -/
theorem rest_head_char (d : Delims) (i : X12Interchange) (hwf : InterchangeWF d i)
    (iea : X12Segment) (hiea : i.trailer = some iea) (hieatag : iea.tag = "IEA") :
    ∃ c tl, renderSegsChars d
        (i.functionalGroups.flatMap X12FunctionalGroup.segModel ++ [iea]) = c :: tl
      ∧ c ≠ '\r' ∧ c ≠ '\n' := by
  cases hfg : i.functionalGroups with
  | nil =>
    obtain ⟨tl, htl⟩ := renderSegsChars_head d iea [] 'I' ['E', 'A']
      (by rw [hieatag])
    exact ⟨'I', tl, by simpa using htl, by decide, by decide⟩
  | cons fg fgs =>
    obtain ⟨gs, hgs, hgstag, _⟩ := (hwf.groups_wf fg (by rw [hfg]; simp)).header_gs
    have hfgmodel : ∃ body, fg.segModel = gs :: body := by
      unfold X12FunctionalGroup.segModel
      rw [hgs]
      exact ⟨_, rfl⟩
    obtain ⟨body, hbody⟩ := hfgmodel
    have hshape : (fg :: fgs).flatMap X12FunctionalGroup.segModel ++ [iea]
        = gs :: (body ++ fgs.flatMap X12FunctionalGroup.segModel ++ [iea]) := by
      rw [List.flatMap_cons, hbody]
      simp [List.append_assoc]
    obtain ⟨tl, htl⟩ := renderSegsChars_head d gs
      (body ++ fgs.flatMap X12FunctionalGroup.segModel ++ [iea]) 'G' ['S']
      (by rw [hgstag])
    exact ⟨'G', tl, by rw [hshape]; exact htl, by decide, by decide⟩

/-- Delimiter detection on a well-formed interchange's serialized text
returns exactly the delimiter set the tree was serialized with. -/
theorem detect_renderSegs (d : Delims) (i : X12Interchange) (hwf : InterchangeWF d i) :
    detectDelimiters (renderSegsChars d i.segModel) = .ok d := by
  obtain ⟨isa, hisa, hisawf⟩ := hwf.header_isa
  obtain ⟨iea, hiea, hieatag, hieacl⟩ := hwf.trailer_iea
  obtain ⟨hjflen, hjf3, hjf104⟩ := isa_joinFields_facts d isa hisawf
  rw [List.get?_eq_getElem?] at hjf3 hjf104
  have hmodel : i.segModel
      = isa :: (i.functionalGroups.flatMap X12FunctionalGroup.segModel ++ [iea]) := by
    unfold X12Interchange.segModel
    rw [hisa, hiea]
    rfl
  have hrest_ne : i.functionalGroups.flatMap X12FunctionalGroup.segModel ++ [iea] ≠ [] := by
    simp
  have hT : renderSegsChars d i.segModel
      = (joinFields [d.ec] (fieldsOf isa) ++ [d.term])
        ++ (eolChars d ++ renderSegsChars d
          (i.functionalGroups.flatMap X12FunctionalGroup.segModel ++ [iea])) := by
    rw [hmodel, renderSegsChars_cons d isa _ hrest_ne]
    unfold segChars
    simp [List.append_assoc]
  have hlen' : (joinFields [d.ec] (fieldsOf isa) ++ [d.term]).length = 106 := by
    rw [List.length_append, hjflen]
    rfl
  have h3 : (renderSegsChars d i.segModel).get? 3 = some d.ec := by
    rw [hT, List.get?_eq_getElem?, List.getElem?_append_left (by rw [hlen']; omega),
      List.getElem?_append_left (by rw [hjflen]; omega)]
    exact hjf3
  have h104 : (renderSegsChars d i.segModel).get? 104 = some d.sub := by
    rw [hT, List.get?_eq_getElem?, List.getElem?_append_left (by rw [hlen']; omega),
      List.getElem?_append_left (by rw [hjflen]; omega)]
    exact hjf104
  have h105 : (renderSegsChars d i.segModel).get? 105 = some d.term := by
    rw [hT, List.get?_eq_getElem?, List.getElem?_append_left (by rw [hlen']; omega),
      List.getElem?_append_right (by rw [hjflen]), hjflen]
    rfl
  have h106 : (renderSegsChars d i.segModel).get? 106
      = (eolChars d ++ renderSegsChars d
          (i.functionalGroups.flatMap X12FunctionalGroup.segModel ++ [iea])).get? 0 := by
    rw [hT, List.get?_eq_getElem?, List.getElem?_append_right (by rw [hlen']), hlen',
      ← List.get?_eq_getElem?]
  have h107 : (renderSegsChars d i.segModel).get? 107
      = (eolChars d ++ renderSegsChars d
          (i.functionalGroups.flatMap X12FunctionalGroup.segModel ++ [iea])).get? 1 := by
    rw [hT, List.get?_eq_getElem?, List.getElem?_append_right (by rw [hlen']; omega), hlen',
      ← List.get?_eq_getElem?]
  obtain ⟨c, tl, hctl, hc1, hc2⟩ := rest_head_char d i hwf iea hiea hieatag
  obtain ⟨hne1, hecr, hecn, htr, htn, heol⟩ := hwf.delims_wf
  obtain ⟨ec, term, sub, eol, fmt⟩ := d
  unfold detectDelimiters
  rw [h3, h104, h105, h106, h107]
  show (if _ = some '\r' ∧ _ = some '\n' then _ else _) = _
  cases fmt with
  | true =>
    simp only [if_true] at heol
    have heolc : eolChars ⟨ec, term, sub, eol, true⟩ = eol := by
      simp [eolChars]
    rcases heol with h1 | h1
    · rw [heolc, h1]
      rw [if_neg (by simp), if_pos (by simp)]
    · rw [heolc, h1]
      rw [if_pos (by simp)]
  | false =>
    simp only [Bool.false_eq_true, if_false] at heol
    have heolc : eolChars ⟨ec, term, sub, eol, false⟩ = [] := by
      simp [eolChars]
    rw [heolc, List.nil_append, hctl]
    rw [if_neg (by
      intro hcontra
      have h1 := hcontra.1
      simp at h1
      exact hc1 h1)]
    rw [if_neg (by
      intro hcontra
      simp at hcontra
      exact hc2 hcontra)]
    rw [heol]

/-! ## Structural assembly reconstructs the tree -/

theorem parseStep_isa (o : X12SerializationOptions) (c : ParseCursor) (s : X12Segment)
    (htag : s.tag = "ISA") (h : c.isaHeader = none) :
    parseStep o c s = .ok { c with isaHeader := some s } := by
  unfold parseStep
  rw [htag]
  simp [h]

theorem parseStep_gs (o : X12SerializationOptions) (c : ParseCursor) (s isa : X12Segment)
    (htag : s.tag = "GS") (hisa : c.isaHeader = some isa) (hgs : c.gsHeader = none) :
    parseStep o c s = .ok { c with gsHeader := some s } := by
  unfold parseStep
  rw [htag]
  simp [hisa, hgs]

theorem parseStep_st (o : X12SerializationOptions) (c : ParseCursor) (s gs : X12Segment)
    (htag : s.tag = "ST") (hgs : c.gsHeader = some gs) (hst : c.stHeader = none) :
    parseStep o c s = .ok { c with stHeader := some s, bodyAcc := [] } := by
  unfold parseStep
  rw [htag]
  simp [hgs, hst]

theorem parseStep_se (o : X12SerializationOptions) (c : ParseCursor) (s st : X12Segment)
    (htag : s.tag = "SE") (hst : c.stHeader = some st) :
    parseStep o c s = .ok { c with
      stHeader := none
      bodyAcc := []
      txnsAcc := c.txnsAcc ++ [⟨some st, some s, c.bodyAcc, o⟩] } := by
  unfold parseStep
  rw [htag]
  simp [hst]

theorem parseStep_ge (o : X12SerializationOptions) (c : ParseCursor) (s gs : X12Segment)
    (htag : s.tag = "GE") (hgs : c.gsHeader = some gs) (hst : c.stHeader = none) :
    parseStep o c s = .ok { c with
      gsHeader := none
      txnsAcc := []
      groupsAcc := c.groupsAcc ++ [⟨some gs, some s, c.txnsAcc, o⟩] } := by
  unfold parseStep
  rw [htag]
  simp [hgs, hst]

theorem parseStep_iea (o : X12SerializationOptions) (c : ParseCursor) (s isa : X12Segment)
    (htag : s.tag = "IEA") (hisa : c.isaHeader = some isa) (hgs : c.gsHeader = none) :
    parseStep o c s = .ok { c with
      isaHeader := none
      groupsAcc := []
      done := c.done ++ [⟨some isa, some s, c.groupsAcc, o⟩] } := by
  unfold parseStep
  rw [htag]
  simp [hisa, hgs]

theorem parseStep_body (o : X12SerializationOptions) (c : ParseCursor) (s st : X12Segment)
    (hnot : s.tag ∉ controlTags) (hst : c.stHeader = some st) :
    parseStep o c s = .ok { c with bodyAcc := c.bodyAcc ++ [s] } := by
  simp only [controlTags, List.mem_cons, List.mem_singleton, not_or] at hnot
  obtain ⟨h1, h2, h3, h4, h5, h6⟩ := hnot
  unfold parseStep
  rw [if_neg h1, if_neg h2, if_neg h3, if_neg h4, if_neg h5, if_neg (by simpa using h6)]
  simp [hst]

theorem foldlM_parseStep_body (o : X12SerializationOptions) :
    ∀ (body : List X12Segment), (∀ s ∈ body, s.tag ∉ controlTags) →
      ∀ (c : ParseCursor) (st : X12Segment), c.stHeader = some st →
        body.foldlM (parseStep o) c = .ok { c with bodyAcc := c.bodyAcc ++ body }
  | [], _, c, st, hst => by
      show Except.ok c = _
      rw [List.append_nil]
  | s :: body, hb, c, st, hst => by
      rw [List.foldlM_cons, parseStep_body o c s st (hb s (by simp)) hst]
      show body.foldlM (parseStep o) { c with bodyAcc := c.bodyAcc ++ [s] } = _
      rw [foldlM_parseStep_body o body (fun u hu => hb u (by simp [hu]))
        { c with bodyAcc := c.bodyAcc ++ [s] } st hst]
      simp

theorem foldlM_txn_segModel (d : Delims) (t : X12Transaction) (hwf : TxnWF d t) :
    ∀ (c : ParseCursor) (gs : X12Segment), c.gsHeader = some gs → c.stHeader = none →
      c.bodyAcc = [] →
      t.segModel.foldlM (parseStep (optionsOfDelims d)) c
        = .ok { c with txnsAcc := c.txnsAcc ++ [t] } := by
  intro c gs hgs hst hbody
  obtain ⟨st, hsth, hsttag, _⟩ := hwf.header_st
  obtain ⟨se, hseh, hsetag, _⟩ := hwf.trailer_se
  have hmodel : t.segModel = st :: (t.segments ++ [se]) := by
    unfold X12Transaction.segModel
    rw [hsth, hseh]
    rfl
  rw [hmodel, List.foldlM_cons,
    parseStep_st (optionsOfDelims d) c st gs hsttag hgs hst]
  show (t.segments ++ [se]).foldlM (parseStep (optionsOfDelims d))
    { c with stHeader := some st, bodyAcc := [] } = _
  rw [List.foldlM_append,
    foldlM_parseStep_body (optionsOfDelims d) t.segments
      (fun s hs => (hwf.body_wf s hs).2)
      { c with stHeader := some st, bodyAcc := [] } st rfl]
  show [se].foldlM (parseStep (optionsOfDelims d))
    { c with stHeader := some st, bodyAcc := [] ++ t.segments } = _
  rw [List.foldlM_cons,
    parseStep_se (optionsOfDelims d) _ se st hsetag rfl]
  show Except.ok _ = Except.ok _
  have ht : t = ⟨some st, some se, [] ++ t.segments, optionsOfDelims d⟩ := by
    cases t with
    | mk th tt ts topts =>
      cases hsth
      cases hseh
      rw [List.nil_append]
      rw [show topts = optionsOfDelims d from hwf.opts_eq]
  rw [← ht]
  cases c with
  | mk done isaH groupsA gsH txnsA stH bodyA =>
    cases hst
    cases hbody
    rfl

theorem foldlM_txns_flatMap (d : Delims) :
    ∀ (ts : List X12Transaction), (∀ t ∈ ts, TxnWF d t) →
      ∀ (c : ParseCursor) (gs : X12Segment), c.gsHeader = some gs → c.stHeader = none →
        c.bodyAcc = [] →
        (ts.flatMap X12Transaction.segModel).foldlM (parseStep (optionsOfDelims d)) c
          = .ok { c with txnsAcc := c.txnsAcc ++ ts }
  | [], _, c, gs, hgs, hst, hbody => by
      show Except.ok c = _
      rw [List.append_nil]
  | t :: ts, h, c, gs, hgs, hst, hbody => by
      rw [List.flatMap_cons, List.foldlM_append,
        foldlM_txn_segModel d t (h t (by simp)) c gs hgs hst hbody]
      show (ts.flatMap X12Transaction.segModel).foldlM (parseStep (optionsOfDelims d))
        { c with txnsAcc := c.txnsAcc ++ [t] } = _
      rw [foldlM_txns_flatMap d ts (fun u hu => h u (by simp [hu]))
        { c with txnsAcc := c.txnsAcc ++ [t] } gs hgs hst hbody]
      simp

theorem foldlM_group_segModel (d : Delims) (g : X12FunctionalGroup) (hwf : GroupWF d g) :
    ∀ (c : ParseCursor) (isa : X12Segment), c.isaHeader = some isa → c.gsHeader = none →
      c.stHeader = none → c.txnsAcc = [] → c.bodyAcc = [] →
      g.segModel.foldlM (parseStep (optionsOfDelims d)) c
        = .ok { c with groupsAcc := c.groupsAcc ++ [g], txnsAcc := [] } := by
  intro c isa hisa hgs hst htxns hbody
  obtain ⟨gs, hgsh, hgstag, _⟩ := hwf.header_gs
  obtain ⟨ge, hgeh, hgetag, _⟩ := hwf.trailer_ge
  have hmodel : g.segModel = gs :: (g.transactions.flatMap X12Transaction.segModel ++ [ge]) := by
    unfold X12FunctionalGroup.segModel
    rw [hgsh, hgeh]
    rfl
  rw [hmodel, List.foldlM_cons,
    parseStep_gs (optionsOfDelims d) c gs isa hgstag hisa hgs]
  show (g.transactions.flatMap X12Transaction.segModel ++ [ge]).foldlM
    (parseStep (optionsOfDelims d)) { c with gsHeader := some gs } = _
  rw [List.foldlM_append,
    foldlM_txns_flatMap d g.transactions hwf.txns_wf
      { c with gsHeader := some gs } gs rfl hst hbody]
  show [ge].foldlM (parseStep (optionsOfDelims d))
    { c with gsHeader := some gs, txnsAcc := c.txnsAcc ++ g.transactions } = _
  rw [List.foldlM_cons,
    parseStep_ge (optionsOfDelims d)
      { c with gsHeader := some gs, txnsAcc := c.txnsAcc ++ g.transactions }
      ge gs hgetag rfl hst]
  show Except.ok _ = Except.ok _
  have hg : g = ⟨some gs, some ge, c.txnsAcc ++ g.transactions, optionsOfDelims d⟩ := by
    cases g with
    | mk gh gt gts gopts =>
      cases hgsh
      cases hgeh
      rw [htxns, List.nil_append]
      rw [show gopts = optionsOfDelims d from hwf.opts_eq]
  rw [← hg]
  cases c with
  | mk done isaH groupsA gsH txnsA stH bodyA =>
    cases hgs
    cases htxns
    rfl

theorem foldlM_groups_flatMap (d : Delims) :
    ∀ (fgs : List X12FunctionalGroup), (∀ fg ∈ fgs, GroupWF d fg) →
      ∀ (c : ParseCursor) (isa : X12Segment), c.isaHeader = some isa → c.gsHeader = none →
        c.stHeader = none → c.txnsAcc = [] → c.bodyAcc = [] →
        (fgs.flatMap X12FunctionalGroup.segModel).foldlM (parseStep (optionsOfDelims d)) c
          = .ok { c with groupsAcc := c.groupsAcc ++ fgs, txnsAcc := [] }
  | [], _, c, isa, hisa, hgs, hst, htxns, hbody => by
      show Except.ok c = _
      rw [List.append_nil]
      cases c with
      | mk done isaH groupsA gsH txnsA stH bodyA =>
        cases htxns
        rfl
  | fg :: fgs, h, c, isa, hisa, hgs, hst, htxns, hbody => by
      rw [List.flatMap_cons, List.foldlM_append,
        foldlM_group_segModel d fg (h fg (by simp)) c isa hisa hgs hst htxns hbody]
      show (fgs.flatMap X12FunctionalGroup.segModel).foldlM (parseStep (optionsOfDelims d))
        { c with groupsAcc := c.groupsAcc ++ [fg], txnsAcc := [] } = _
      rw [foldlM_groups_flatMap d fgs (fun u hu => h u (by simp [hu]))
        { c with groupsAcc := c.groupsAcc ++ [fg], txnsAcc := [] } isa hisa hgs hst rfl hbody]
      simp

theorem foldlM_doc_segModel (d : Delims) (i : X12Interchange) (hwf : InterchangeWF d i) :
    ∀ (c : ParseCursor), c.isaHeader = none → c.gsHeader = none → c.stHeader = none →
      c.groupsAcc = [] → c.txnsAcc = [] → c.bodyAcc = [] →
      i.segModel.foldlM (parseStep (optionsOfDelims d)) c
        = .ok { c with done := c.done ++ [i], groupsAcc := [], txnsAcc := [] } := by
  intro c hisaH hgs hst hgroups htxns hbody
  obtain ⟨isa, hisah, hisawf⟩ := hwf.header_isa
  obtain ⟨iea, hieah, hieatag, _⟩ := hwf.trailer_iea
  have hmodel : i.segModel
      = isa :: (i.functionalGroups.flatMap X12FunctionalGroup.segModel ++ [iea]) := by
    unfold X12Interchange.segModel
    rw [hisah, hieah]
    rfl
  rw [hmodel, List.foldlM_cons,
    parseStep_isa (optionsOfDelims d) c isa hisawf.tag_eq hisaH]
  show (i.functionalGroups.flatMap X12FunctionalGroup.segModel ++ [iea]).foldlM
    (parseStep (optionsOfDelims d)) { c with isaHeader := some isa } = _
  rw [List.foldlM_append,
    foldlM_groups_flatMap d i.functionalGroups hwf.groups_wf
      { c with isaHeader := some isa } isa rfl hgs hst htxns hbody]
  show [iea].foldlM (parseStep (optionsOfDelims d))
    { c with isaHeader := some isa, groupsAcc := c.groupsAcc ++ i.functionalGroups, txnsAcc := [] }
    = _
  rw [List.foldlM_cons,
    parseStep_iea (optionsOfDelims d)
      { c with isaHeader := some isa, groupsAcc := c.groupsAcc ++ i.functionalGroups, txnsAcc := [] }
      iea isa hieatag rfl hgs]
  show Except.ok _ = Except.ok _
  have hi : i = ⟨some isa, some iea, c.groupsAcc ++ i.functionalGroups, optionsOfDelims d⟩ := by
    cases i with
    | mk ih it ifgs iopts =>
      cases hisah
      cases hieah
      rw [hgroups, List.nil_append]
      rw [show iopts = optionsOfDelims d from hwf.opts_eq]
  rw [← hi]
  cases c with
  | mk done isaH groupsA gsH txnsA stH bodyA =>
    cases hisaH
    cases hgroups
    cases htxns
    rfl

/-- Assembling a well-formed interchange's segment sequence yields exactly
that interchange. -/
theorem assembleSegments_segModel (d : Delims) (i : X12Interchange)
    (hwf : InterchangeWF d i) :
    assembleSegments (optionsOfDelims d) i.segModel = .ok [i] := by
  unfold assembleSegments
  rw [foldlM_doc_segModel d i hwf {} rfl rfl rfl rfl rfl rfl]
  rfl

theorem txn_segModel_clean (d : Delims) (t : X12Transaction) (hwf : TxnWF d t) :
    ∀ s ∈ t.segModel, SegClean d s := by
  obtain ⟨st, hst, _, hstcl⟩ := hwf.header_st
  obtain ⟨se, hse, _, hsecl⟩ := hwf.trailer_se
  intro s hs
  unfold X12Transaction.segModel at hs
  rw [hst, hse] at hs
  simp only [Option.toList_some] at hs
  rcases List.mem_append.mp hs with h1 | h2
  · rcases List.mem_append.mp h1 with ha | hb
    · rw [List.mem_singleton.mp ha]
      exact hstcl
    · exact (hwf.body_wf s hb).1
  · rw [List.mem_singleton.mp h2]
    exact hsecl

theorem group_segModel_clean (d : Delims) (g : X12FunctionalGroup) (hwf : GroupWF d g) :
    ∀ s ∈ g.segModel, SegClean d s := by
  obtain ⟨gs, hgs, _, hgscl⟩ := hwf.header_gs
  obtain ⟨ge, hge, _, hgecl⟩ := hwf.trailer_ge
  intro s hs
  unfold X12FunctionalGroup.segModel at hs
  rw [hgs, hge] at hs
  simp only [Option.toList_some] at hs
  rcases List.mem_append.mp hs with h1 | h2
  · rcases List.mem_append.mp h1 with ha | hb
    · rw [List.mem_singleton.mp ha]
      exact hgscl
    · obtain ⟨t, ht, hst⟩ := List.mem_flatMap.mp hb
      exact txn_segModel_clean d t (hwf.txns_wf t ht) s hst
  · rw [List.mem_singleton.mp h2]
    exact hgecl

theorem doc_segModel_clean (d : Delims) (i : X12Interchange) (hwf : InterchangeWF d i) :
    ∀ s ∈ i.segModel, SegClean d s := by
  obtain ⟨isa, hisa, hisawf⟩ := hwf.header_isa
  obtain ⟨iea, hiea, _, hieacl⟩ := hwf.trailer_iea
  intro s hs
  unfold X12Interchange.segModel at hs
  rw [hisa, hiea] at hs
  simp only [Option.toList_some] at hs
  rcases List.mem_append.mp hs with h1 | h2
  · rcases List.mem_append.mp h1 with ha | hb
    · rw [List.mem_singleton.mp ha]
      exact hisawf.clean
    · obtain ⟨fg, hfg, hsfg⟩ := List.mem_flatMap.mp hb
      exact group_segModel_clean d fg (hwf.groups_wf fg hfg) s hsfg
  · rw [List.mem_singleton.mp h2]
    exact hieacl

theorem map_segmentOfToken_fieldsOf :
    ∀ l : List X12Segment, (l.map fieldsOf).map segmentOfToken = l
  | [] => rfl
  | s :: l => by
      rw [List.map_cons, List.map_cons, segmentOfToken_fieldsOf,
        map_segmentOfToken_fieldsOf l]

/-- Strict parsing of a well-formed interchange's serialized text returns
exactly that interchange (the stored options being the detected ones). -/
theorem parse_of_toString (d : Delims) (i : X12Interchange) (T : String)
    (hwf : InterchangeWF d i) (hT : i.toString none = .ok T) :
    X12Parser.parse T = .ok [i] := by
  obtain ⟨str, hok, hdata⟩ := X12Interchange.toString_data_doc d i hwf
  rw [hok] at hT
  have hTs : T = str := (Except.ok.inj hT).symm
  subst hTs
  unfold X12Parser.parse
  rw [hdata, detect_renderSegs d i hwf]
  show assembleSegments (optionsOfDelims d)
    ((tokenize d (renderSegsChars d i.segModel)).map segmentOfToken) = _
  obtain ⟨isa, hisa, hisawf⟩ := hwf.header_isa
  obtain ⟨iea, hiea, hieatag, _⟩ := hwf.trailer_iea
  have hmodel : i.segModel
      = isa :: (i.functionalGroups.flatMap X12FunctionalGroup.segModel ++ [iea]) := by
    unfold X12Interchange.segModel
    rw [hisa, hiea]
    rfl
  have hclean : ∀ s ∈ isa :: (i.functionalGroups.flatMap X12FunctionalGroup.segModel ++ [iea]),
      SegClean d s := by
    rw [← hmodel]
    exact doc_segModel_clean d i hwf
  have htok := tokenize_renderSegs d hwf.delims_wf isa
    (i.functionalGroups.flatMap X12FunctionalGroup.segModel ++ [iea]) hclean
    'I' ['S', 'A'] (by rw [hisawf.tag_eq]) (by decide) (by decide)
  rw [hmodel, htok, ← hmodel, map_segmentOfToken_fieldsOf]
  exact assembleSegments_segModel d i hwf

/-- **C2.** For every valid EDI document — the serialization `T` of a
well-formed interchange tree — strict parsing of `T` yields exactly that
tree (owning the detected delimiter set), and generating from the resulting
tree with the options inferred from `T`, with no intervening mutation,
produces exactly the character sequence `T`, including delimiter choice,
segment terminator and line-ending style. -/
theorem claim2_parse_generate_roundtrip (d : Delims) (i : X12Interchange) (T : String)
    (hwf : InterchangeWF d i) (hT : i.toString none = .ok T) :
    X12Parser.parse T = .ok [i]
    ∧ (do
        let l ← X12Parser.parse T
        match l with
        | [i'] => i'.toString none
        | _ => .error X12Error.structuralError) = .ok T := by
  have hp := parse_of_toString d i T hwf hT
  refine ⟨hp, ?_⟩
  rw [hp]
  show i.toString none = .ok T
  exact hT

/-- A concrete delimiter set: the library defaults, unformatted. -/
def egDelims : Delims := ⟨'*', '~', '>', ['\n'], false⟩

/-- A concrete fixed-width ISA header segment. -/
def egIsa : X12Segment :=
  ⟨"ISA", ["00", "0000000000", "00", "0000000000", "ZZ", "SSSSSSSSSSSSSSS", "ZZ",
    "RRRRRRRRRRRRRRR", "260101", "1200", "U", "00401", "000000001", "0", "P", ">"].map
      X12Element.mk⟩

/-- A concrete IEA trailer segment (zero groups, matching control number). -/
def egIea : X12Segment := ⟨"IEA", [⟨"0"⟩, ⟨"000000001"⟩]⟩

/-- A concrete well-formed interchange with no functional groups. -/
def egInterchange : X12Interchange :=
  ⟨some egIsa, some egIea, [], optionsOfDelims egDelims⟩

/-- Well-formedness of the concrete interchange. -/
theorem egInterchange_wf : InterchangeWF egDelims egInterchange :=
  ⟨by simp only [DelimsWF]; decide, rfl,
   ⟨egIsa, rfl, ⟨rfl, by simp only [SegClean]; decide, by decide, by decide⟩⟩,
   ⟨egIea, rfl, rfl, by simp only [SegClean]; decide⟩,
   by simp [egInterchange]⟩

/-- Witness for C2: the concrete document round-trips through parse and
generate. -/
theorem claim2_parse_generate_roundtrip_witness :
    X12Parser.parse "ISA*00*0000000000*00*0000000000*ZZ*SSSSSSSSSSSSSSS*ZZ*RRRRRRRRRRRRRRR*260101*1200*U*00401*000000001*0*P*>~IEA*0*000000001~"
      = .ok [egInterchange]
    ∧ (do
        let l ← X12Parser.parse "ISA*00*0000000000*00*0000000000*ZZ*SSSSSSSSSSSSSSS*ZZ*RRRRRRRRRRRRRRR*260101*1200*U*00401*000000001*0*P*>~IEA*0*000000001~"
        match l with
        | [i'] => i'.toString none
        | _ => .error X12Error.structuralError)
      = .ok "ISA*00*0000000000*00*0000000000*ZZ*SSSSSSSSSSSSSSS*ZZ*RRRRRRRRRRRRRRR*260101*1200*U*00401*000000001*0*P*>~IEA*0*000000001~" :=
  claim2_parse_generate_roundtrip egDelims egInterchange
    "ISA*00*0000000000*00*0000000000*ZZ*SSSSSSSSSSSSSSS*ZZ*RRRRRRRRRRRRRRR*260101*1200*U*00401*000000001*0*P*>~IEA*0*000000001~"
    egInterchange_wf rfl

/-! ## The generic notational mirror at interchange level, and reconstruction -/

/-- An interchange of the generic notational mirror (class `JSEDI`
interchange level): ISA header values and functional groups. -/
structure JSEDIInterchange where
  header : List String
  functionalGroups : List JSEDIFunctionalGroup := []
deriving DecidableEq, Repr

/-- Modelled from the spec: interchange `toJSON` — the ISA header's raw
values and each functional group's mirror, in order (the same shape as the
functional group's source `toJSON`). -/
def X12Interchange.toJSON (i : X12Interchange) : Except X12Error JSEDIInterchange :=
  match i.header with
  | none => .error .typeError
  | some h => do
    let fgs ← i.functionalGroups.mapM X12FunctionalGroup.toJSON
    pure { header := h.elements.map X12Element.value, functionalGroups := fgs }

/-- The per-call options resolution of the interchange methods. -/
def X12Interchange.resolveOptions (i : X12Interchange)
    (options : Option X12SerializationOptionsArg) : X12SerializationOptions :=
  match options with
  | some arg => defaultSerializationOptions (some arg)
  | none => i.options

/-- Modelled from the spec: the interchange `_setTrailer` — an IEA trailer
holding the functional-group count and the interchange control number read
from header element 13 (ISA13), mirroring the group's `_setTrailer`. -/
def X12Interchange._setTrailer (i : X12Interchange)
    (options : Option X12SerializationOptionsArg) : Except X12Error X12Interchange :=
  let _o := i.resolveOptions options
  match i.header with
  | none => .error .typeError
  | some h =>
    .ok { i with
      trailer := some ((X12Segment.mk "IEA" []).setElements
        [Nat.repr i.functionalGroups.length, h.valueOf 13]) }

/-- Modelled from the spec: the interchange `setHeader` — sets an ISA header
with the given elements and the paired IEA trailer, mirroring the group's
`setHeader`. -/
def X12Interchange.setHeader (i : X12Interchange) (elements : List String)
    (options : Option X12SerializationOptionsArg) : Except X12Error X12Interchange :=
  let o := i.resolveOptions options
  let i := { i with header := some ((X12Segment.mk "ISA" []).setElements elements) }
  i._setTrailer (some o.toArg)

/-- Modelled from the spec: `addFunctionalGroup` — pushes a fresh functional
group and updates the IEA trailer's count element, mirroring the group's
`addTransaction`. -/
def X12Interchange.addFunctionalGroup (i : X12Interchange)
    (options : Option X12SerializationOptionsArg) :
    Except X12Error (X12FunctionalGroup × X12Interchange) :=
  let o := i.resolveOptions options
  let fg := X12FunctionalGroup.create (some o.toArg)
  let i := { i with functionalGroups := i.functionalGroups ++ [fg] }
  match i.trailer with
  | none => .error .typeError
  | some tr =>
    .ok (fg,
      { i with trailer := some (tr.replaceElement (Nat.repr i.functionalGroups.length) 1) })

/-- Modelled from the spec: notational reconstruction of a transaction —
re-run `setHeader` and `addSegment` over the mirror's values. -/
def X12Generator.buildTransaction (o : X12SerializationOptions) (n : JSEDITransaction) :
    X12Transaction :=
  n.segments.foldl (fun t sn => (t.addSegment sn.tag sn.elements).2)
    ((X12Transaction.create (some o.toArg)).setHeader n.header)

/-- Modelled from the spec: notational reconstruction of a functional group —
re-run the same header-then-add-children logic (`setHeader`, then
`addTransaction` per child), so count trailers are rebuilt rather than
copied; the source's mutation of the freshly added child through the
returned reference is modelled by replacing the just-pushed child with the
built one. -/
def X12Generator.buildGroup (o : X12SerializationOptions) (n : JSEDIFunctionalGroup) :
    Except X12Error X12FunctionalGroup := do
  let g₀ ← (X12FunctionalGroup.create (some o.toArg)).setHeader n.header (some o.toArg)
  n.transactions.foldlM (fun g tn => do
    let r ← g.addTransaction (some o.toArg)
    pure { r.2 with
      transactions := r.2.transactions.dropLast ++ [X12Generator.buildTransaction o tn] }) g₀

/-- Modelled from the spec: notational reconstruction of an interchange. -/
def X12Generator.buildInterchange (o : X12SerializationOptions) (n : JSEDIInterchange) :
    Except X12Error X12Interchange := do
  let i₀ ← (X12Interchange.create (some o.toArg)).setHeader n.header (some o.toArg)
  n.functionalGroups.foldlM (fun i gn => do
    let r ← i.addFunctionalGroup (some o.toArg)
    let fg ← X12Generator.buildGroup o gn
    pure { r.2 with
      functionalGroups := r.2.functionalGroups.dropLast ++ [fg] }) i₀

/-- Count and control-number consistency of a transaction: the SE trailer is
exactly what the construction operations compute from the ST header. -/
structure TxnConsistent (o : X12SerializationOptions) (t : X12Transaction) : Prop where
  opts_eq : t.options = o
  shape : ∃ st, t.header = some st ∧ st.tag = "ST"
    ∧ t.trailer = some ⟨"SE", [⟨st.valueOf 2⟩]⟩

/-- Count and control-number consistency of a functional group. -/
structure GroupConsistent (o : X12SerializationOptions) (g : X12FunctionalGroup) : Prop where
  opts_eq : g.options = o
  shape : ∃ gs, g.header = some gs ∧ gs.tag = "GS"
    ∧ g.trailer = some ⟨"GE", [⟨Nat.repr g.transactions.length⟩, ⟨gs.valueOf 6⟩]⟩
  txns : ∀ t ∈ g.transactions, TxnConsistent o t

/-- Count and control-number consistency of an interchange. -/
structure InterchangeConsistent (i : X12Interchange) : Prop where
  shape : ∃ isa, i.header = some isa ∧ isa.tag = "ISA"
    ∧ i.trailer = some ⟨"IEA", [⟨Nat.repr i.functionalGroups.length⟩, ⟨isa.valueOf 13⟩]⟩
  groups : ∀ fg ∈ i.functionalGroups, GroupConsistent i.options fg

/-- The mirror of a transaction (junk on a headerless transaction). -/
def jsonTxnOr (t : X12Transaction) : JSEDITransaction :=
  match jsonOfTransaction t with
  | .ok n => n
  | .error _ => ⟨[], []⟩

theorem map_mk_value : ∀ es : List X12Element,
    (es.map X12Element.value).map X12Element.mk = es
  | [] => rfl
  | e :: es => by rw [List.map_cons, List.map_cons, map_mk_value es]

theorem jsonOfTransaction_consistent (o : X12SerializationOptions) (t : X12Transaction)
    (hc : TxnConsistent o t) : jsonOfTransaction t = .ok (jsonTxnOr t) := by
  obtain ⟨st, hst, _, _⟩ := hc.shape
  unfold jsonTxnOr
  cases hj : jsonOfTransaction t with
  | error err =>
    unfold jsonOfTransaction at hj
    rw [hst] at hj
    exact Except.noConfusion hj
  | ok n => rfl

theorem mapM_jsonTxnOr (o : X12SerializationOptions) :
    ∀ ts : List X12Transaction, (∀ t ∈ ts, TxnConsistent o t) →
      ts.mapM jsonOfTransaction = .ok (ts.map jsonTxnOr)
  | [], _ => rfl
  | t :: ts, h => by
      rw [List.mapM_cons, jsonOfTransaction_consistent o t (h t (by simp)),
        mapM_jsonTxnOr o ts (fun u hu => h u (by simp [hu]))]
      rfl

theorem foldl_addSegment : ∀ (segs : List X12Segment) (t₀ : X12Transaction),
    (segs.map (fun s => JSEDISegment.mk s.tag (s.elements.map X12Element.value))).foldl
      (fun t sn => (t.addSegment sn.tag sn.elements).2) t₀
    = { t₀ with segments := t₀.segments ++ segs }
  | [], t₀ => by
      show t₀ = _
      rw [List.append_nil]
  | s :: segs, t₀ => by
      rw [List.map_cons, List.foldl_cons]
      show (segs.map _).foldl _
        { t₀ with segments := t₀.segments
          ++ [(X12Segment.mk s.tag []).setElements (s.elements.map X12Element.value)] } = _
      have hseg : (X12Segment.mk s.tag []).setElements (s.elements.map X12Element.value) = s := by
        unfold X12Segment.setElements
        rw [show (s.elements.map X12Element.value).map X12Element.mk = s.elements from
          map_mk_value s.elements]
      rw [hseg, foldl_addSegment segs _]
      simp

theorem buildTransaction_jsonTxnOr (o : X12SerializationOptions) (t : X12Transaction)
    (hc : TxnConsistent o t) : X12Generator.buildTransaction o (jsonTxnOr t) = t := by
  obtain ⟨st, hst, hsttag, htr⟩ := hc.shape
  have hn : jsonTxnOr t = ⟨st.elements.map X12Element.value,
      t.segments.map (fun s => JSEDISegment.mk s.tag (s.elements.map X12Element.value))⟩ := by
    unfold jsonTxnOr jsonOfTransaction
    rw [hst]
  rw [X12Generator.buildTransaction, hn]
  have hsetel : (X12Segment.mk "ST" []).setElements (st.elements.map X12Element.value) = st := by
    unfold X12Segment.setElements
    rw [map_mk_value st.elements, ← hsttag]
  show (t.segments.map _).foldl _
    ((X12Transaction.create (some o.toArg)).setHeader (st.elements.map X12Element.value)) = _
  rw [foldl_addSegment t.segments _]
  unfold X12Transaction.setHeader X12Transaction.create
  rw [hsetel]
  cases t with
  | mk th tt ts topts =>
    simp only [X12Transaction.mk.injEq]
    simp only at hst htr
    refine ⟨hst.symm, ?_, by simp, (hc.opts_eq).symm⟩
    rw [htr]
    rfl

theorem buildGroup_step (o : X12SerializationOptions) (g : X12FunctionalGroup)
    (c6 : String) (t : X12Transaction) (hc : TxnConsistent o t)
    (htr : g.trailer = some ⟨"GE", [⟨Nat.repr g.transactions.length⟩, ⟨c6⟩]⟩) :
    (do
      let r ← g.addTransaction (some o.toArg)
      pure { r.2 with transactions := r.2.transactions.dropLast
        ++ [X12Generator.buildTransaction o (jsonTxnOr t)] } : Except X12Error X12FunctionalGroup)
    = .ok { g with
        transactions := g.transactions ++ [t]
        trailer := some ⟨"GE", [⟨Nat.repr (g.transactions.length + 1)⟩, ⟨c6⟩]⟩ } := by
  cases g with
  | mk gh gt gts gopts =>
    rw [X12FunctionalGroup.addTransaction_eq _ _ _ htr]
    show Except.ok (X12FunctionalGroup.mk gh
        (some ⟨"GE", [⟨Nat.repr (gts.length + 1)⟩, ⟨c6⟩]⟩)
        ((gts ++ [X12Transaction.create (some ((X12FunctionalGroup.mk gh gt gts
            gopts).resolveOptions (some o.toArg)).toArg)]).dropLast
          ++ [X12Generator.buildTransaction o (jsonTxnOr t)])
        gopts)
      = Except.ok (X12FunctionalGroup.mk gh
        (some ⟨"GE", [⟨Nat.repr (gts.length + 1)⟩, ⟨c6⟩]⟩)
        (gts ++ [t]) gopts)
    rw [List.dropLast_concat, buildTransaction_jsonTxnOr o t hc]

theorem buildGroup_fold (o : X12SerializationOptions) :
    ∀ ts2 : List X12Transaction, (∀ t ∈ ts2, TxnConsistent o t) →
      ∀ (g : X12FunctionalGroup) (c6 : String),
        g.trailer = some ⟨"GE", [⟨Nat.repr g.transactions.length⟩, ⟨c6⟩]⟩ →
        (ts2.map jsonTxnOr).foldlM (fun g tn => do
            let r ← g.addTransaction (some o.toArg)
            pure { r.2 with transactions := r.2.transactions.dropLast
              ++ [X12Generator.buildTransaction o tn] }) g
        = .ok { g with
            transactions := g.transactions ++ ts2
            trailer := some ⟨"GE", [⟨Nat.repr (g.transactions.length + ts2.length)⟩, ⟨c6⟩]⟩ }
  | [], _, g, c6, htr => by
      cases g with
      | mk gh gt gts gopts =>
        simp only at htr
        subst htr
        show Except.ok (X12FunctionalGroup.mk gh
            (some ⟨"GE", [⟨Nat.repr gts.length⟩, ⟨c6⟩]⟩) gts gopts)
          = Except.ok (X12FunctionalGroup.mk gh
            (some ⟨"GE", [⟨Nat.repr gts.length⟩, ⟨c6⟩]⟩) (gts ++ []) gopts)
        rw [List.append_nil]
  | t :: ts2, h, g, c6, htr => by
      cases g with
      | mk gh gt gts gopts =>
        rw [List.map_cons, List.foldlM_cons,
          buildGroup_step o (X12FunctionalGroup.mk gh gt gts gopts) c6 t (h t (by simp)) htr]
        refine Eq.trans (buildGroup_fold o ts2 (fun u hu => h u (by simp [hu]))
          (X12FunctionalGroup.mk gh
            (some ⟨"GE", [⟨Nat.repr (gts.length + 1)⟩, ⟨c6⟩]⟩) (gts ++ [t]) gopts) c6
          (by simp)) ?_
        show Except.ok (X12FunctionalGroup.mk gh
            (some ⟨"GE", [⟨Nat.repr ((gts ++ [t]).length + ts2.length)⟩, ⟨c6⟩]⟩)
            ((gts ++ [t]) ++ ts2) gopts)
          = Except.ok (X12FunctionalGroup.mk gh
            (some ⟨"GE", [⟨Nat.repr (gts.length + (t :: ts2).length)⟩, ⟨c6⟩]⟩)
            (gts ++ t :: ts2) gopts)
        have h1 : (gts ++ [t]) ++ ts2 = gts ++ t :: ts2 := by simp
        have h2 : (gts ++ [t]).length + ts2.length = gts.length + (t :: ts2).length := by
          simp
          omega
        rw [h1, h2]

/-- The mirror of a functional group (junk on a headerless group). -/
def jsonGroupOr (g : X12FunctionalGroup) : JSEDIFunctionalGroup :=
  match g.toJSON with
  | .ok n => n
  | .error _ => ⟨[], []⟩

theorem buildGroup_def (o : X12SerializationOptions) (hdr : List String)
    (tns : List JSEDITransaction) :
    X12Generator.buildGroup o ⟨hdr, tns⟩ = (do
      let g₀ ← (X12FunctionalGroup.create (some o.toArg)).setHeader hdr (some o.toArg)
      tns.foldlM (fun g tn => do
        let r ← g.addTransaction (some o.toArg)
        pure { r.2 with transactions := r.2.transactions.dropLast
          ++ [X12Generator.buildTransaction o tn] }) g₀) := rfl

/-- On a count-consistent functional group, `toJSON` succeeds and rebuilding
from its mirror restores the group exactly. -/
theorem buildGroup_inv (o : X12SerializationOptions) (g : X12FunctionalGroup)
    (hc : GroupConsistent o g) :
    g.toJSON = .ok (jsonGroupOr g) ∧ X12Generator.buildGroup o (jsonGroupOr g) = .ok g := by
  obtain ⟨gs, hgs, hgstag, htr⟩ := hc.shape
  have htxns := hc.txns
  have hopts := hc.opts_eq
  have hsetgs : (X12Segment.mk "GS" []).setElements (gs.elements.map X12Element.value) = gs := by
    unfold X12Segment.setElements
    rw [map_mk_value gs.elements, ← hgstag]
  have hjson : g.toJSON
      = .ok ⟨gs.elements.map X12Element.value, g.transactions.map jsonTxnOr⟩ := by
    unfold X12FunctionalGroup.toJSON
    rw [hgs]
    show (List.mapM jsonOfTransaction g.transactions) >>= _ = _
    rw [mapM_jsonTxnOr o g.transactions htxns]
    rfl
  have hor : jsonGroupOr g
      = ⟨gs.elements.map X12Element.value, g.transactions.map jsonTxnOr⟩ := by
    unfold jsonGroupOr
    rw [hjson]
  refine ⟨by rw [hjson, hor], ?_⟩
  rw [hor, buildGroup_def, X12FunctionalGroup.setHeader_eq, hsetgs]
  refine Eq.trans (buildGroup_fold o g.transactions htxns
    (X12FunctionalGroup.mk (some gs) (some ⟨"GE", [⟨Nat.repr 0⟩, ⟨gs.valueOf 6⟩]⟩) [] o)
    (gs.valueOf 6) rfl) ?_
  show Except.ok (X12FunctionalGroup.mk (some gs)
      (some ⟨"GE", [⟨Nat.repr (0 + g.transactions.length)⟩, ⟨gs.valueOf 6⟩]⟩)
      g.transactions o)
    = Except.ok g
  rw [Nat.zero_add]
  cases g with
  | mk gh gt gts gopts =>
    simp only at hgs htr hopts
    subst hgs
    subst htr
    subst hopts
    rfl

/-- Explicit description of `addFunctionalGroup`'s successful result when the
trailer exists. -/
theorem X12Interchange.addFunctionalGroup_eq (i : X12Interchange) (tr : X12Segment)
    (arg : Option X12SerializationOptionsArg) (h : i.trailer = some tr) :
    i.addFunctionalGroup arg = .ok
      (X12FunctionalGroup.create (some (i.resolveOptions arg).toArg),
       { i with
         functionalGroups := i.functionalGroups
           ++ [X12FunctionalGroup.create (some (i.resolveOptions arg).toArg)]
         trailer := some (tr.replaceElement (Nat.repr (i.functionalGroups.length + 1)) 1) }) := by
  simp only [X12Interchange.addFunctionalGroup, h, List.length_append, List.length_cons,
    List.length_nil, Nat.zero_add]

theorem mapM_jsonGroupOr (o : X12SerializationOptions) :
    ∀ fgs : List X12FunctionalGroup, (∀ g ∈ fgs, GroupConsistent o g) →
      fgs.mapM X12FunctionalGroup.toJSON = .ok (fgs.map jsonGroupOr)
  | [], _ => rfl
  | g :: fgs, h => by
      rw [List.mapM_cons, (buildGroup_inv o g (h g (by simp))).1,
        mapM_jsonGroupOr o fgs (fun u hu => h u (by simp [hu]))]
      rfl

theorem buildInterchange_step (o : X12SerializationOptions) (i : X12Interchange)
    (c13 : String) (g : X12FunctionalGroup) (hc : GroupConsistent o g)
    (htr : i.trailer = some ⟨"IEA", [⟨Nat.repr i.functionalGroups.length⟩, ⟨c13⟩]⟩) :
    (do
      let r ← i.addFunctionalGroup (some o.toArg)
      let fg ← X12Generator.buildGroup o (jsonGroupOr g)
      pure { r.2 with functionalGroups := r.2.functionalGroups.dropLast
        ++ [fg] } : Except X12Error X12Interchange)
    = .ok { i with
        functionalGroups := i.functionalGroups ++ [g]
        trailer := some ⟨"IEA", [⟨Nat.repr (i.functionalGroups.length + 1)⟩, ⟨c13⟩]⟩ } := by
  cases i with
  | mk ih it ifgs iopts =>
    rw [X12Interchange.addFunctionalGroup_eq _ _ _ htr, (buildGroup_inv o g hc).2]
    show Except.ok (X12Interchange.mk ih
        (some ⟨"IEA", [⟨Nat.repr (ifgs.length + 1)⟩, ⟨c13⟩]⟩)
        ((ifgs ++ [X12FunctionalGroup.create (some ((X12Interchange.mk ih it ifgs
            iopts).resolveOptions (some o.toArg)).toArg)]).dropLast ++ [g])
        iopts)
      = Except.ok (X12Interchange.mk ih
        (some ⟨"IEA", [⟨Nat.repr (ifgs.length + 1)⟩, ⟨c13⟩]⟩)
        (ifgs ++ [g]) iopts)
    rw [List.dropLast_concat]

theorem buildInterchange_fold (o : X12SerializationOptions) :
    ∀ fgs : List X12FunctionalGroup, (∀ g ∈ fgs, GroupConsistent o g) →
      ∀ (i : X12Interchange) (c13 : String),
        i.trailer = some ⟨"IEA", [⟨Nat.repr i.functionalGroups.length⟩, ⟨c13⟩]⟩ →
        (fgs.map jsonGroupOr).foldlM (fun i gn => do
            let r ← i.addFunctionalGroup (some o.toArg)
            let fg ← X12Generator.buildGroup o gn
            pure { r.2 with functionalGroups := r.2.functionalGroups.dropLast ++ [fg] }) i
        = .ok { i with
            functionalGroups := i.functionalGroups ++ fgs
            trailer := some ⟨"IEA",
              [⟨Nat.repr (i.functionalGroups.length + fgs.length)⟩, ⟨c13⟩]⟩ }
  | [], _, i, c13, htr => by
      cases i with
      | mk ih it ifgs iopts =>
        simp only at htr
        subst htr
        show Except.ok (X12Interchange.mk ih
            (some ⟨"IEA", [⟨Nat.repr ifgs.length⟩, ⟨c13⟩]⟩) ifgs iopts)
          = Except.ok (X12Interchange.mk ih
            (some ⟨"IEA", [⟨Nat.repr ifgs.length⟩, ⟨c13⟩]⟩) (ifgs ++ []) iopts)
        rw [List.append_nil]
  | g :: fgs, h, i, c13, htr => by
      cases i with
      | mk ih it ifgs iopts =>
        rw [List.map_cons, List.foldlM_cons,
          buildInterchange_step o (X12Interchange.mk ih it ifgs iopts) c13 g
            (h g (by simp)) htr]
        refine Eq.trans (buildInterchange_fold o fgs (fun u hu => h u (by simp [hu]))
          (X12Interchange.mk ih
            (some ⟨"IEA", [⟨Nat.repr (ifgs.length + 1)⟩, ⟨c13⟩]⟩) (ifgs ++ [g]) iopts) c13
          (by simp)) ?_
        show Except.ok (X12Interchange.mk ih
            (some ⟨"IEA", [⟨Nat.repr ((ifgs ++ [g]).length + fgs.length)⟩, ⟨c13⟩]⟩)
            ((ifgs ++ [g]) ++ fgs) iopts)
          = Except.ok (X12Interchange.mk ih
            (some ⟨"IEA", [⟨Nat.repr (ifgs.length + (g :: fgs).length)⟩, ⟨c13⟩]⟩)
            (ifgs ++ g :: fgs) iopts)
        have h1 : (ifgs ++ [g]) ++ fgs = ifgs ++ g :: fgs := by simp
        have h2 : (ifgs ++ [g]).length + fgs.length = ifgs.length + (g :: fgs).length := by
          simp
          omega
        rw [h1, h2]

/-- Explicit description of the interchange `setHeader`'s successful result. -/
theorem X12Interchange.setHeader_ok (i : X12Interchange) (elements : List String)
    (arg : Option X12SerializationOptionsArg) :
    i.setHeader elements arg = .ok { i with
      header := some ((X12Segment.mk "ISA" []).setElements elements)
      trailer := some ((X12Segment.mk "IEA" []).setElements
        [Nat.repr i.functionalGroups.length,
         ((X12Segment.mk "ISA" []).setElements elements).valueOf 13]) } := rfl

/-- The mirror of an interchange (junk on a headerless interchange). -/
def jsonInterchangeOr (i : X12Interchange) : JSEDIInterchange :=
  match i.toJSON with
  | .ok n => n
  | .error _ => ⟨[], []⟩

theorem buildInterchange_def (o : X12SerializationOptions) (hdr : List String)
    (gns : List JSEDIFunctionalGroup) :
    X12Generator.buildInterchange o ⟨hdr, gns⟩ = (do
      let i₀ ← (X12Interchange.create (some o.toArg)).setHeader hdr (some o.toArg)
      gns.foldlM (fun i gn => do
        let r ← i.addFunctionalGroup (some o.toArg)
        let fg ← X12Generator.buildGroup o gn
        pure { r.2 with functionalGroups := r.2.functionalGroups.dropLast ++ [fg] }) i₀) := rfl

/-- On a count-consistent interchange, `toJSON` succeeds and rebuilding from
its mirror (with the interchange's own options) restores it exactly. -/
theorem buildInterchange_inv (i : X12Interchange) (hc : InterchangeConsistent i) :
    i.toJSON = .ok (jsonInterchangeOr i)
    ∧ X12Generator.buildInterchange i.options (jsonInterchangeOr i) = .ok i := by
  obtain ⟨isa, hisa, hisatag, htr⟩ := hc.shape
  have hgroups := hc.groups
  have hsetisa : (X12Segment.mk "ISA" []).setElements (isa.elements.map X12Element.value)
      = isa := by
    unfold X12Segment.setElements
    rw [map_mk_value isa.elements, ← hisatag]
  have hjson : i.toJSON
      = .ok ⟨isa.elements.map X12Element.value, i.functionalGroups.map jsonGroupOr⟩ := by
    unfold X12Interchange.toJSON
    rw [hisa]
    show (List.mapM X12FunctionalGroup.toJSON i.functionalGroups) >>= _ = _
    rw [mapM_jsonGroupOr i.options i.functionalGroups hgroups]
    rfl
  have hor : jsonInterchangeOr i
      = ⟨isa.elements.map X12Element.value, i.functionalGroups.map jsonGroupOr⟩ := by
    unfold jsonInterchangeOr
    rw [hjson]
  refine ⟨by rw [hjson, hor], ?_⟩
  rw [hor, buildInterchange_def, X12Interchange.setHeader_ok, hsetisa]
  refine Eq.trans (buildInterchange_fold i.options i.functionalGroups hgroups
    (X12Interchange.mk (some isa) (some ⟨"IEA", [⟨Nat.repr 0⟩, ⟨isa.valueOf 13⟩]⟩)
      [] i.options)
    (isa.valueOf 13) rfl) ?_
  show Except.ok (X12Interchange.mk (some isa)
      (some ⟨"IEA", [⟨Nat.repr (0 + i.functionalGroups.length)⟩, ⟨isa.valueOf 13⟩]⟩)
      i.functionalGroups i.options)
    = Except.ok i
  rw [Nat.zero_add]
  cases i with
  | mk ih it ifgs iopts =>
    simp only at hisa htr
    subst hisa
    subst htr
    rfl

/-- **C3.** For every valid EDI document — the serialization `T` of a
well-formed, count-consistent interchange tree — converting the
strict-parsed tree to the delimiter-free generic mirror (`toJSON`),
reconstructing a typed tree from that mirror, and generating EDI text from
the reconstruction yields text equal to `T`: the count fields and
header/trailer pairing recomputed by the reconstruction from the same
ordered input agree with the originals. -/
theorem claim3_json_roundtrip (d : Delims) (i : X12Interchange) (T : String)
    (hwf : InterchangeWF d i) (hcons : InterchangeConsistent i)
    (hT : i.toString none = .ok T) :
    i.toJSON = .ok (jsonInterchangeOr i)
    ∧ X12Generator.buildInterchange i.options (jsonInterchangeOr i) = .ok i
    ∧ (do
        let l ← X12Parser.parse T
        match l with
        | [i'] => do
            let n ← i'.toJSON
            let i'' ← X12Generator.buildInterchange i'.options n
            i''.toString none
        | _ => .error X12Error.structuralError) = .ok T := by
  obtain ⟨hjson, hbuild⟩ := buildInterchange_inv i hcons
  refine ⟨hjson, hbuild, ?_⟩
  rw [parse_of_toString d i T hwf hT]
  show (do
      let n ← i.toJSON
      let i'' ← X12Generator.buildInterchange i.options n
      i''.toString none) = .ok T
  rw [hjson]
  show (do
      let i'' ← X12Generator.buildInterchange i.options (jsonInterchangeOr i)
      i''.toString none) = .ok T
  rw [hbuild]
  show i.toString none = .ok T
  exact hT

/-- Witness for C3: the concrete document round-trips through parse, the
generic mirror, reconstruction and generate. -/
theorem claim3_json_roundtrip_witness :
    egInterchange.toJSON = .ok (jsonInterchangeOr egInterchange)
    ∧ X12Generator.buildInterchange egInterchange.options (jsonInterchangeOr egInterchange)
      = .ok egInterchange
    ∧ (do
        let l ← X12Parser.parse "ISA*00*0000000000*00*0000000000*ZZ*SSSSSSSSSSSSSSS*ZZ*RRRRRRRRRRRRRRR*260101*1200*U*00401*000000001*0*P*>~IEA*0*000000001~"
        match l with
        | [i'] => do
            let n ← i'.toJSON
            let i'' ← X12Generator.buildInterchange i'.options n
            i''.toString none
        | _ => .error X12Error.structuralError)
      = .ok "ISA*00*0000000000*00*0000000000*ZZ*SSSSSSSSSSSSSSS*ZZ*RRRRRRRRRRRRRRR*260101*1200*U*00401*000000001*0*P*>~IEA*0*000000001~" :=
  claim3_json_roundtrip egDelims egInterchange
    "ISA*00*0000000000*00*0000000000*ZZ*SSSSSSSSSSSSSSS*ZZ*RRRRRRRRRRRRRRR*260101*1200*U*00401*000000001*0*P*>~IEA*0*000000001~"
    egInterchange_wf
    ⟨⟨egIsa, rfl, rfl, by decide⟩, fun fg hfg => absurd hfg (List.not_mem_nil fg)⟩
    rfl
